import Mathlib

/-!
# Verification of the swept-profile picture-frame pipeline

Shallow embedding of `picture_frame_swept.py`.  The module-level dimension
constants become a configuration record over `ℚ`; the profile curve built by
`create_frame_profile` becomes an explicit list of segments (straight lines,
quadratic and cubic Bezier arcs) with the control points written in the source;
the 3D stage (extrusion along Z, the two 45-degree miter cut boxes, the four
rigid placements and the final union) is embedded as operations on subsets of
`ℝ × ℝ × ℝ`, with rotations given by explicit Euler-angle rotation maps exactly
as `build123d.Location((px,py,pz),(rx,ry,rz))` composes them (intrinsic X-Y-Z).

Two deliberate modelling notes, both stated where they are used:
* a boolean subtraction `A.cut(B)` is modelled as `A \ interior B`
  (regularized subtraction: the cut removes the open cutting volume, faces
  that land exactly on the cut plane survive);
* the planar face produced by `make_face()` from the closed profile outline is
  handled abstractly: theorems about the solid take an arbitrary cross-section
  set `F` squeezed between the outline curve itself (the face contains its
  boundary) and the outline's bounding rectangle (the face of a closed curve
  is contained in the convex hull of the curve).  Both sandwich facts hold for
  the real face, and concrete instances use the outline curve itself.
-/

/-- The module-level frame dimension constants of `picture_frame_swept.py`
(`painting_width`, ..., `rabbet_depth`), as one record of rationals. -/
structure FrameConfig where
  painting_width : ℚ
  painting_height : ℚ
  frame_width : ℚ
  frame_depth : ℚ
  rabbet_width : ℚ
  rabbet_depth : ℚ
  deriving DecidableEq, Repr

/-- The constants assigned at module level in the source:
`painting 200 x 150, frame_width 40, frame_depth 20, rabbet 8 x 6`. -/
def defaultConfig : FrameConfig :=
  { painting_width := 200
    painting_height := 150
    frame_width := 40
    frame_depth := 20
    rabbet_width := 8
    rabbet_depth := 6 }

/-- The spec's validity constraints on the six inputs: all positive,
`rabbet_width < frame_width`, `rabbet_depth < frame_depth`. -/
def ValidConfig (g : FrameConfig) : Prop :=
  0 < g.painting_width ∧ 0 < g.painting_height ∧ 0 < g.frame_width ∧
    0 < g.frame_depth ∧ 0 < g.rabbet_width ∧ 0 < g.rabbet_depth ∧
    g.rabbet_width < g.frame_width ∧ g.rabbet_depth < g.frame_depth

instance (g : FrameConfig) : Decidable (ValidConfig g) := by
  unfold ValidConfig; infer_instance

/-- Outer frame width: the default `width` argument of `create_picture_frame`
(`painting_width + 2 * frame_width`). -/
def outerW (g : FrameConfig) : ℚ := g.painting_width + 2 * g.frame_width

/-- Outer frame height: the default `height` argument of `create_picture_frame`
(`painting_height + 2 * frame_width`). -/
def outerH (g : FrameConfig) : ℚ := g.painting_height + 2 * g.frame_width

/-- One segment of the profile outline, as authored in `create_frame_profile`:
a straight line, or a Bezier arc given by its control points.  `build123d`'s
`Bezier(p0, ..., pn)` is the Bezier curve of degree `n` with exactly those
control points, so a three-point call is a quadratic arc and a four-point call
a cubic one. -/
inductive SegQ where
  | line (p q : ℚ × ℚ)
  | quadBez (p0 p1 p2 : ℚ × ℚ)
  | cubicBez (p0 p1 p2 p3 : ℚ × ℚ)
  deriving DecidableEq, Repr

/-- First point of a segment. -/
def SegQ.startPt : SegQ → ℚ × ℚ
  | .line p _ => p
  | .quadBez p _ _ => p
  | .cubicBez p _ _ _ => p

/-- Last point of a segment (what `seg @ 1` returns in the source). -/
def SegQ.endPt : SegQ → ℚ × ℚ
  | .line _ q => q
  | .quadBez _ _ p => p
  | .cubicBez _ _ _ p => p

/-- Control points of a segment, in order. -/
def SegQ.controls : SegQ → List (ℚ × ℚ)
  | .line p q => [p, q]
  | .quadBez p0 p1 p2 => [p0, p1, p2]
  | .cubicBez p0 p1 p2 p3 => [p0, p1, p2, p3]

/-- Polynomial degree of a segment: 1 for a line, 2 for a quadratic Bezier,
3 for a cubic Bezier. -/
def SegQ.degree : SegQ → ℕ
  | .line _ _ => 1
  | .quadBez _ _ _ => 2
  | .cubicBez _ _ _ _ => 3

/-- The profile outline of `create_frame_profile`, segment by segment in
source order: `l1 l2 l3 l4` (back edge with the rabbet step, inner edge),
`bezier bezier2` (cubic arcs up to and across the decorative peak at
`peak_height = frame_depth + 8`), `bezier3` (a three-point, hence quadratic,
arc down to the outer-top corner) and the closing line `l5`.  Each segment
starts at the previous segment's `@ 1` point exactly as in the source. -/
def create_frame_profile_outline (g : FrameConfig) : List SegQ :=
  let fw := g.frame_width
  let fd := g.frame_depth
  let rw := g.rabbet_width
  let rd := g.rabbet_depth
  let l1 := SegQ.line (0, 0) (fw - rw, 0)
  let l2 := SegQ.line l1.endPt (fw - rw, rd)
  let l3 := SegQ.line l2.endPt (fw, rd)
  let l4 := SegQ.line l3.endPt (fw, fd)
  let peak_height := fd + 8
  let bezier := SegQ.cubicBez l4.endPt (fw * 0.85, fd + 4) (fw * 0.75, peak_height)
    (fw * 0.6, peak_height)
  let bezier2 := SegQ.cubicBez bezier.endPt (fw * 0.45, peak_height)
    (fw * 0.4, peak_height - 5) (fw * 0.2, fd + 5)
  let bezier3 := SegQ.quadBez bezier2.endPt (fw * 0.05, fd + 1) (0, fd)
  let l5 := SegQ.line bezier3.endPt (0, 0)
  [l1, l2, l3, l4, bezier, bezier2, bezier3, l5]

/-- Outcome of building the profile: either a profile face (represented by its
outline) or the spec's `DegenerateProfile` error. -/
inductive ProfileOutcome where
  | ok (outline : List SegQ)
  | degenerateProfile
  deriving DecidableEq, Repr

/-- `create_frame_profile` as the pipeline consumes it: the source performs
no validation of its own — it unconditionally authors the outline and calls
`make_face()` — so no code path yields `degenerateProfile` and the authored
outline is the result.  This pipeline-level view elides the geometry
kernel's own failure on a zero-length `Line` edge, which cannot occur for
the valid parameter sets under which the pipeline is analysed; the
kernel-faithful outcome, with that failure mode modelled, is
`create_frame_profile_run` below. -/
def create_frame_profile (g : FrameConfig) : ProfileOutcome :=
  .ok (create_frame_profile_outline g)

example : (create_frame_profile defaultConfig) =
    .ok (create_frame_profile_outline defaultConfig) := rfl

example : (create_frame_profile_outline defaultConfig).length = 8 := by decide

/-! ## Real-valued evaluation of the outline -/

/-- 2D point in profile space. -/
abbrev V2 := ℝ × ℝ

/-- 3D point in world space. -/
abbrev V3 := ℝ × ℝ × ℝ

/-- Affine interpolation between two endpoint coordinates. -/
def lineEval (a b t : ℝ) : ℝ := (1 - t) * a + t * b

/-- Quadratic Bernstein form on one coordinate of a three-point Bezier. -/
def quadEval (a b c t : ℝ) : ℝ :=
  (1 - t) ^ 2 * a + 2 * ((1 - t) * t) * b + t ^ 2 * c

/-- Cubic Bernstein form on one coordinate of a four-point Bezier. -/
def cubicEval (a b c d t : ℝ) : ℝ :=
  (1 - t) ^ 3 * a + 3 * ((1 - t) ^ 2 * t) * b + 3 * ((1 - t) * t ^ 2) * c + t ^ 3 * d

/-- The point of a segment at curve parameter `t`. -/
def SegQ.evalR : SegQ → ℝ → V2
  | .line p q, t => (lineEval (p.1 : ℝ) (q.1 : ℝ) t, lineEval (p.2 : ℝ) (q.2 : ℝ) t)
  | .quadBez p0 p1 p2, t =>
      (quadEval (p0.1 : ℝ) (p1.1 : ℝ) (p2.1 : ℝ) t, quadEval (p0.2 : ℝ) (p1.2 : ℝ) (p2.2 : ℝ) t)
  | .cubicBez p0 p1 p2 p3, t =>
      (cubicEval (p0.1 : ℝ) (p1.1 : ℝ) (p2.1 : ℝ) (p3.1 : ℝ) t,
        cubicEval (p0.2 : ℝ) (p1.2 : ℝ) (p2.2 : ℝ) (p3.2 : ℝ) t)

/-- All points traced by one segment for `t ∈ [0,1]`. -/
def segPointsR (s : SegQ) : Set V2 := {w | ∃ t : ℝ, 0 ≤ t ∧ t ≤ 1 ∧ s.evalR t = w}

/-- All points traced by an outline (a list of segments). -/
def outlinePoints (outline : List SegQ) : Set V2 := {w | ∃ s ∈ outline, w ∈ segPointsR s}

/-- The set of points of the profile outline of `create_frame_profile`. -/
def profileCurve (g : FrameConfig) : Set V2 :=
  outlinePoints (create_frame_profile_outline g)

/-- The outline with every chained endpoint substituted, for rewriting. -/
theorem create_frame_profile_outline_eq (g : FrameConfig) :
    create_frame_profile_outline g =
      [SegQ.line (0, 0) (g.frame_width - g.rabbet_width, 0),
        SegQ.line (g.frame_width - g.rabbet_width, 0)
          (g.frame_width - g.rabbet_width, g.rabbet_depth),
        SegQ.line (g.frame_width - g.rabbet_width, g.rabbet_depth)
          (g.frame_width, g.rabbet_depth),
        SegQ.line (g.frame_width, g.rabbet_depth) (g.frame_width, g.frame_depth),
        SegQ.cubicBez (g.frame_width, g.frame_depth) (g.frame_width * 0.85, g.frame_depth + 4)
          (g.frame_width * 0.75, g.frame_depth + 8) (g.frame_width * 0.6, g.frame_depth + 8),
        SegQ.cubicBez (g.frame_width * 0.6, g.frame_depth + 8)
          (g.frame_width * 0.45, g.frame_depth + 8)
          (g.frame_width * 0.4, g.frame_depth + 8 - 5) (g.frame_width * 0.2, g.frame_depth + 5),
        SegQ.quadBez (g.frame_width * 0.2, g.frame_depth + 5)
          (g.frame_width * 0.05, g.frame_depth + 1) (0, g.frame_depth),
        SegQ.line (0, g.frame_depth) (0, 0)] := rfl

/-! ## Convex-combination bounds for segment coordinates -/

theorem lineEval_le {a b t M : ℝ} (ht0 : 0 ≤ t) (ht1 : t ≤ 1)
    (ha : a ≤ M) (hb : b ≤ M) : lineEval a b t ≤ M := by
  unfold lineEval; nlinarith

theorem le_lineEval {a b t m : ℝ} (ht0 : 0 ≤ t) (ht1 : t ≤ 1)
    (ha : m ≤ a) (hb : m ≤ b) : m ≤ lineEval a b t := by
  unfold lineEval; nlinarith

theorem quadEval_le {a b c t M : ℝ} (ht0 : 0 ≤ t) (ht1 : t ≤ 1)
    (ha : a ≤ M) (hb : b ≤ M) (hc : c ≤ M) : quadEval a b c t ≤ M := by
  unfold quadEval
  have h1 : 0 ≤ 1 - t := by linarith
  nlinarith [mul_nonneg (mul_nonneg h1 h1) (sub_nonneg.2 ha),
    mul_nonneg (mul_nonneg h1 ht0) (sub_nonneg.2 hb),
    mul_nonneg (mul_nonneg ht0 ht0) (sub_nonneg.2 hc)]

theorem le_quadEval {a b c t m : ℝ} (ht0 : 0 ≤ t) (ht1 : t ≤ 1)
    (ha : m ≤ a) (hb : m ≤ b) (hc : m ≤ c) : m ≤ quadEval a b c t := by
  unfold quadEval
  have h1 : 0 ≤ 1 - t := by linarith
  nlinarith [mul_nonneg (mul_nonneg h1 h1) (sub_nonneg.2 ha),
    mul_nonneg (mul_nonneg h1 ht0) (sub_nonneg.2 hb),
    mul_nonneg (mul_nonneg ht0 ht0) (sub_nonneg.2 hc)]

theorem cubicEval_le {a b c d t M : ℝ} (ht0 : 0 ≤ t) (ht1 : t ≤ 1)
    (ha : a ≤ M) (hb : b ≤ M) (hc : c ≤ M) (hd : d ≤ M) : cubicEval a b c d t ≤ M := by
  unfold cubicEval
  have h1 : 0 ≤ 1 - t := by linarith
  nlinarith [mul_nonneg (mul_nonneg (mul_nonneg h1 h1) h1) (sub_nonneg.2 ha),
    mul_nonneg (mul_nonneg (mul_nonneg h1 h1) ht0) (sub_nonneg.2 hb),
    mul_nonneg (mul_nonneg (mul_nonneg h1 ht0) ht0) (sub_nonneg.2 hc),
    mul_nonneg (mul_nonneg (mul_nonneg ht0 ht0) ht0) (sub_nonneg.2 hd)]

theorem le_cubicEval {a b c d t m : ℝ} (ht0 : 0 ≤ t) (ht1 : t ≤ 1)
    (ha : m ≤ a) (hb : m ≤ b) (hc : m ≤ c) (hd : m ≤ d) : m ≤ cubicEval a b c d t := by
  unfold cubicEval
  have h1 : 0 ≤ 1 - t := by linarith
  nlinarith [mul_nonneg (mul_nonneg (mul_nonneg h1 h1) h1) (sub_nonneg.2 ha),
    mul_nonneg (mul_nonneg (mul_nonneg h1 h1) ht0) (sub_nonneg.2 hb),
    mul_nonneg (mul_nonneg (mul_nonneg h1 ht0) ht0) (sub_nonneg.2 hc),
    mul_nonneg (mul_nonneg (mul_nonneg ht0 ht0) ht0) (sub_nonneg.2 hd)]

/-- Axis-aligned closed rectangle in profile space. -/
def rect (x0 x1 y0 y1 : ℝ) : Set V2 :=
  {w | x0 ≤ w.1 ∧ w.1 ≤ x1 ∧ y0 ≤ w.2 ∧ w.2 ≤ y1}

/-- A segment whose control points all lie in a rectangle stays inside it
(the Bernstein weights are a partition of unity on `[0,1]`). -/
theorem segPointsR_subset_rect {x0 x1 y0 y1 : ℝ} (s : SegQ)
    (h : ∀ c ∈ s.controls,
      x0 ≤ (c.1 : ℝ) ∧ (c.1 : ℝ) ≤ x1 ∧ y0 ≤ (c.2 : ℝ) ∧ (c.2 : ℝ) ≤ y1) :
    segPointsR s ⊆ rect x0 x1 y0 y1 := by
  rintro w ⟨t, ht0, ht1, rfl⟩
  cases s with
  | line p q =>
      have hp := h p (by simp [SegQ.controls])
      have hq := h q (by simp [SegQ.controls])
      exact ⟨le_lineEval ht0 ht1 hp.1 hq.1, lineEval_le ht0 ht1 hp.2.1 hq.2.1,
        le_lineEval ht0 ht1 hp.2.2.1 hq.2.2.1, lineEval_le ht0 ht1 hp.2.2.2 hq.2.2.2⟩
  | quadBez p0 p1 p2 =>
      have h0 := h p0 (by simp [SegQ.controls])
      have h1 := h p1 (by simp [SegQ.controls])
      have h2 := h p2 (by simp [SegQ.controls])
      exact ⟨le_quadEval ht0 ht1 h0.1 h1.1 h2.1, quadEval_le ht0 ht1 h0.2.1 h1.2.1 h2.2.1,
        le_quadEval ht0 ht1 h0.2.2.1 h1.2.2.1 h2.2.2.1,
        quadEval_le ht0 ht1 h0.2.2.2 h1.2.2.2 h2.2.2.2⟩
  | cubicBez p0 p1 p2 p3 =>
      have h0 := h p0 (by simp [SegQ.controls])
      have h1 := h p1 (by simp [SegQ.controls])
      have h2 := h p2 (by simp [SegQ.controls])
      have h3 := h p3 (by simp [SegQ.controls])
      exact ⟨le_cubicEval ht0 ht1 h0.1 h1.1 h2.1 h3.1,
        cubicEval_le ht0 ht1 h0.2.1 h1.2.1 h2.2.1 h3.2.1,
        le_cubicEval ht0 ht1 h0.2.2.1 h1.2.2.1 h2.2.2.1 h3.2.2.1,
        cubicEval_le ht0 ht1 h0.2.2.2 h1.2.2.2 h2.2.2.2 h3.2.2.2⟩

set_option maxHeartbeats 1000000 in
/-- For valid parameters the whole outline lies in
`[0, frame_width] × [0, frame_depth + 8]`. -/
theorem profileCurve_subset_rect (g : FrameConfig) (hg : ValidConfig g) :
    profileCurve g ⊆ rect 0 (g.frame_width : ℝ) 0 ((g.frame_depth : ℝ) + 8) := by
  obtain ⟨-, -, hfw, hfd, hrw, hrd, hrwfw, hrdfd⟩ := hg
  have hfwR : (0 : ℝ) < (g.frame_width : ℝ) := by exact_mod_cast hfw
  have hfdR : (0 : ℝ) < (g.frame_depth : ℝ) := by exact_mod_cast hfd
  have hrwR : (0 : ℝ) < (g.rabbet_width : ℝ) := by exact_mod_cast hrw
  have hrdR : (0 : ℝ) < (g.rabbet_depth : ℝ) := by exact_mod_cast hrd
  have hrwfwR : (g.rabbet_width : ℝ) < (g.frame_width : ℝ) := by exact_mod_cast hrwfw
  have hrdfdR : (g.rabbet_depth : ℝ) < (g.frame_depth : ℝ) := by exact_mod_cast hrdfd
  rintro w ⟨s, hs, hw⟩
  rw [create_frame_profile_outline_eq] at hs
  simp only [List.mem_cons, List.not_mem_nil, or_false] at hs
  rcases hs with rfl | rfl | rfl | rfl | rfl | rfl | rfl | rfl
  · refine segPointsR_subset_rect _ (fun c hc => ?_) hw
    simp only [SegQ.controls, List.mem_cons, List.not_mem_nil, or_false] at hc
    rcases hc with rfl | rfl <;> refine ⟨?_, ?_, ?_, ?_⟩ <;> push_cast <;> nlinarith
  · refine segPointsR_subset_rect _ (fun c hc => ?_) hw
    simp only [SegQ.controls, List.mem_cons, List.not_mem_nil, or_false] at hc
    rcases hc with rfl | rfl <;> refine ⟨?_, ?_, ?_, ?_⟩ <;> push_cast <;> nlinarith
  · refine segPointsR_subset_rect _ (fun c hc => ?_) hw
    simp only [SegQ.controls, List.mem_cons, List.not_mem_nil, or_false] at hc
    rcases hc with rfl | rfl <;> refine ⟨?_, ?_, ?_, ?_⟩ <;> push_cast <;> nlinarith
  · refine segPointsR_subset_rect _ (fun c hc => ?_) hw
    simp only [SegQ.controls, List.mem_cons, List.not_mem_nil, or_false] at hc
    rcases hc with rfl | rfl <;> refine ⟨?_, ?_, ?_, ?_⟩ <;> push_cast <;> nlinarith
  · refine segPointsR_subset_rect _ (fun c hc => ?_) hw
    simp only [SegQ.controls, List.mem_cons, List.not_mem_nil, or_false] at hc
    rcases hc with rfl | rfl | rfl | rfl <;> refine ⟨?_, ?_, ?_, ?_⟩ <;> push_cast <;> nlinarith
  · refine segPointsR_subset_rect _ (fun c hc => ?_) hw
    simp only [SegQ.controls, List.mem_cons, List.not_mem_nil, or_false] at hc
    rcases hc with rfl | rfl | rfl | rfl <;> refine ⟨?_, ?_, ?_, ?_⟩ <;> push_cast <;> nlinarith
  · refine segPointsR_subset_rect _ (fun c hc => ?_) hw
    simp only [SegQ.controls, List.mem_cons, List.not_mem_nil, or_false] at hc
    rcases hc with rfl | rfl | rfl <;> refine ⟨?_, ?_, ?_, ?_⟩ <;> push_cast <;> nlinarith
  · refine segPointsR_subset_rect _ (fun c hc => ?_) hw
    simp only [SegQ.controls, List.mem_cons, List.not_mem_nil, or_false] at hc
    rcases hc with rfl | rfl <;> refine ⟨?_, ?_, ?_, ?_⟩ <;> push_cast <;> nlinarith

/-- The outer-back corner `(0,0)` is on the outline (start of `l1`). -/
theorem origin_mem_profileCurve (g : FrameConfig) : ((0 : ℝ), (0 : ℝ)) ∈ profileCurve g := by
  refine ⟨SegQ.line (0, 0) (g.frame_width - g.rabbet_width, 0), ?_, 0, le_refl 0, zero_le_one, ?_⟩
  · rw [create_frame_profile_outline_eq]; simp
  · simp [SegQ.evalR, lineEval]

/-- The inner-top corner `(frame_width, frame_depth)` is on the outline
(end of `l4`). -/
theorem innerTop_mem_profileCurve (g : FrameConfig) :
    ((g.frame_width : ℝ), (g.frame_depth : ℝ)) ∈ profileCurve g := by
  refine ⟨SegQ.line (g.frame_width, g.rabbet_depth) (g.frame_width, g.frame_depth), ?_,
    1, zero_le_one, le_refl 1, ?_⟩
  · rw [create_frame_profile_outline_eq]; simp
  · simp [SegQ.evalR, lineEval]

/-- The decorative peak `(0.6 * frame_width, frame_depth + 8)` is on the
outline (end of the first cubic arc `bezier`). -/
theorem peak_mem_profileCurve (g : FrameConfig) :
    ((g.frame_width : ℝ) * 0.6, (g.frame_depth : ℝ) + 8) ∈ profileCurve g := by
  refine ⟨SegQ.cubicBez (g.frame_width, g.frame_depth) (g.frame_width * 0.85, g.frame_depth + 4)
    (g.frame_width * 0.75, g.frame_depth + 8) (g.frame_width * 0.6, g.frame_depth + 8), ?_,
    1, zero_le_one, le_refl 1, ?_⟩
  · rw [create_frame_profile_outline_eq]; simp
  · simp only [SegQ.evalR, cubicEval, Prod.mk.injEq]
    refine ⟨?_, ?_⟩ <;> push_cast <;> ring

/-- The rabbet-step top `(frame_width - rabbet_width, rabbet_depth)` is on
the outline (end of `l2`). -/
theorem rabbetTop_mem_profileCurve (g : FrameConfig) :
    (((g.frame_width : ℝ) - (g.rabbet_width : ℝ)), (g.rabbet_depth : ℝ)) ∈ profileCurve g := by
  refine ⟨SegQ.line (g.frame_width - g.rabbet_width, 0)
    (g.frame_width - g.rabbet_width, g.rabbet_depth), ?_, 1, zero_le_one, le_refl 1, ?_⟩
  · rw [create_frame_profile_outline_eq]; simp
  · simp only [SegQ.evalR, lineEval, Prod.mk.injEq]
    refine ⟨?_, ?_⟩ <;> push_cast <;> ring

/-- The y-coordinates attained by the profile outline. -/
def curveYSet (g : FrameConfig) : Set ℝ := (fun w => w.2) '' profileCurve g

/-- The x-coordinates attained by the profile outline. -/
def curveXSet (g : FrameConfig) : Set ℝ := (fun w => w.1) '' profileCurve g

/-- For valid parameters the outline's largest y-coordinate is exactly
`frame_depth + 8` (the decorative peak). -/
theorem curveY_isGreatest (g : FrameConfig) (hg : ValidConfig g) :
    IsGreatest (curveYSet g) ((g.frame_depth : ℝ) + 8) := by
  constructor
  · exact ⟨_, peak_mem_profileCurve g, rfl⟩
  · rintro y ⟨w, hw, rfl⟩
    exact (profileCurve_subset_rect g hg hw).2.2.2

/-- For valid parameters the outline's smallest y-coordinate is 0. -/
theorem curveY_isLeast (g : FrameConfig) (hg : ValidConfig g) :
    IsLeast (curveYSet g) 0 := by
  constructor
  · exact ⟨_, origin_mem_profileCurve g, rfl⟩
  · rintro y ⟨w, hw, rfl⟩
    exact (profileCurve_subset_rect g hg hw).2.2.1

/-- For valid parameters the outline's largest x-coordinate is `frame_width`. -/
theorem curveX_isGreatest (g : FrameConfig) (hg : ValidConfig g) :
    IsGreatest (curveXSet g) (g.frame_width : ℝ) := by
  constructor
  · exact ⟨_, innerTop_mem_profileCurve g, rfl⟩
  · rintro x ⟨w, hw, rfl⟩
    exact (profileCurve_subset_rect g hg hw).2.1

/-- For valid parameters the outline's smallest x-coordinate is 0. -/
theorem curveX_isLeast (g : FrameConfig) (hg : ValidConfig g) :
    IsLeast (curveXSet g) 0 := by
  constructor
  · exact ⟨_, origin_mem_profileCurve g, rfl⟩
  · rintro x ⟨w, hw, rfl⟩
    exact (profileCurve_subset_rect g hg hw).1

/-! ## 3D stage: rotations, locations, extrusion, miter cuts

`build123d.Location((px,py,pz),(rx,ry,rz))` maps a local point `q` to
`(px,py,pz) + R q` where `R` is the intrinsic X-Y-Z Euler rotation
`RotX(rx) * RotY(ry) * RotZ(rz)` with angles in degrees. -/

/-- Degrees to radians. -/
noncomputable def rad (d : ℝ) : ℝ := d * Real.pi / 180

/-- Rotation about the X axis by `a` radians. -/
noncomputable def rotX (a : ℝ) (v : V3) : V3 :=
  (v.1, Real.cos a * v.2.1 - Real.sin a * v.2.2, Real.sin a * v.2.1 + Real.cos a * v.2.2)

/-- Rotation about the Y axis by `a` radians. -/
noncomputable def rotY (a : ℝ) (v : V3) : V3 :=
  (Real.cos a * v.1 + Real.sin a * v.2.2, v.2.1, -(Real.sin a) * v.1 + Real.cos a * v.2.2)

/-- Rotation about the Z axis by `a` radians. -/
noncomputable def rotZ (a : ℝ) (v : V3) : V3 :=
  (Real.cos a * v.1 - Real.sin a * v.2.1, Real.sin a * v.1 + Real.cos a * v.2.1, v.2.2)

/-- The rotation part of a `Location` with rotation tuple `(rx, ry, rz)`
in degrees. -/
noncomputable def eulerXYZ (rx ry rz : ℝ) (v : V3) : V3 :=
  rotX (rad rx) (rotY (rad ry) (rotZ (rad rz) v))

/-- `shape.locate(Location(pos, (rx,ry,rz)))` applied to a point set. -/
def locate (pos : V3) (rx ry rz : ℝ) (S : Set V3) : Set V3 :=
  (fun q => pos + eulerXYZ rx ry rz q) '' S

/-- Half of the square root of two: the cosine and sine of 45 degrees. -/
noncomputable def sqh : ℝ := Real.sqrt 2 / 2

theorem sqh_pos : 0 < sqh := by
  unfold sqh
  have h : 0 < Real.sqrt 2 := Real.sqrt_pos.2 (by norm_num)
  linarith

theorem sqh_mul_self : sqh * sqh = 1 / 2 := by
  have h : Real.sqrt 2 * Real.sqrt 2 = 2 := Real.mul_self_sqrt (by norm_num)
  unfold sqh
  rw [div_mul_div_comm, h]
  norm_num

theorem rad_zero : rad 0 = 0 := by unfold rad; ring

theorem rad_45 : rad 45 = Real.pi / 4 := by unfold rad; ring

theorem rad_neg45 : rad (-45) = -(Real.pi / 4) := by unfold rad; ring

theorem rad_90 : rad 90 = Real.pi / 2 := by unfold rad; ring

theorem rad_neg90 : rad (-90) = -(Real.pi / 2) := by unfold rad; ring

theorem rad_180 : rad 180 = Real.pi := by unfold rad; ring

/-- The rotation of the `"left"` orientation `(90, 0, 0)`. -/
theorem eulerXYZ_left (v : V3) : eulerXYZ 90 0 0 v = (v.1, -v.2.2, v.2.1) := by
  unfold eulerXYZ rotX rotY rotZ
  rw [rad_90, rad_zero]
  simp [Real.cos_pi_div_two, Real.sin_pi_div_two]

/-- The rotation of the `"right"` orientation `(90, 180, 0)`. -/
theorem eulerXYZ_right (v : V3) : eulerXYZ 90 180 0 v = (-v.1, v.2.2, v.2.1) := by
  unfold eulerXYZ rotX rotY rotZ
  rw [rad_90, rad_180, rad_zero]
  simp [Real.cos_pi_div_two, Real.sin_pi_div_two, Real.cos_pi, Real.sin_pi]

/-- The rotation of the `"bottom"` orientation `(90, 90, 0)`. -/
theorem eulerXYZ_bottom (v : V3) : eulerXYZ 90 90 0 v = (v.2.2, v.1, v.2.1) := by
  unfold eulerXYZ rotX rotY rotZ
  rw [rad_90, rad_zero]
  simp [Real.cos_pi_div_two, Real.sin_pi_div_two]

/-- The rotation of the `"top"` orientation `(90, -90, 0)`. -/
theorem eulerXYZ_top (v : V3) : eulerXYZ 90 (-90) 0 v = (-v.2.2, -v.1, v.2.1) := by
  unfold eulerXYZ rotX rotY rotZ
  rw [rad_90, rad_neg90, rad_zero]
  simp [Real.cos_pi_div_two, Real.sin_pi_div_two]

/-- The `(0, 45, 0)` rotation of the first miter cut: rotation about the
local Y axis by +45 degrees. -/
theorem eulerXYZ_rotY45 (v : V3) :
    eulerXYZ 0 45 0 v = (sqh * (v.1 + v.2.2), v.2.1, sqh * (v.2.2 - v.1)) := by
  unfold eulerXYZ rotX rotY rotZ sqh
  rw [rad_45, rad_zero]
  simp only [Real.cos_pi_div_four, Real.sin_pi_div_four, Real.cos_zero, Real.sin_zero,
    Prod.mk.injEq]
  refine ⟨by ring, by ring, by ring⟩

/-- The `(0, -45, 0)` rotation of the second miter cut: rotation about the
local Y axis by -45 degrees. -/
theorem eulerXYZ_rotYneg45 (v : V3) :
    eulerXYZ 0 (-45) 0 v = (sqh * (v.1 - v.2.2), v.2.1, sqh * (v.1 + v.2.2)) := by
  unfold eulerXYZ rotX rotY rotZ sqh
  rw [rad_neg45, rad_zero]
  simp only [Real.cos_neg, Real.sin_neg, Real.cos_pi_div_four, Real.sin_pi_div_four,
    Real.cos_zero, Real.sin_zero, Prod.mk.injEq]
  refine ⟨by ring, by ring, by ring⟩

/-- The `(45, 0, 0)` rotation: rotation about the local X axis by +45
degrees (what the spec's description of the miter cut would give). -/
theorem eulerXYZ_rotX45 (v : V3) :
    eulerXYZ 45 0 0 v = (v.1, sqh * (v.2.1 - v.2.2), sqh * (v.2.1 + v.2.2)) := by
  unfold eulerXYZ rotX rotY rotZ sqh
  rw [rad_45, rad_zero]
  simp only [Real.cos_pi_div_four, Real.sin_pi_div_four, Real.cos_zero, Real.sin_zero,
    Prod.mk.injEq]
  refine ⟨by ring, by ring, by ring⟩

/-- The `(-45, 0, 0)` rotation: rotation about the local X axis by -45
degrees. -/
theorem eulerXYZ_rotXneg45 (v : V3) :
    eulerXYZ (-45) 0 0 v = (v.1, sqh * (v.2.1 + v.2.2), sqh * (v.2.2 - v.2.1)) := by
  unfold eulerXYZ rotX rotY rotZ sqh
  rw [rad_neg45, rad_zero]
  simp only [Real.cos_neg, Real.sin_neg, Real.cos_pi_div_four, Real.sin_pi_div_four,
    Real.cos_zero, Real.sin_zero, Prod.mk.injEq]
  refine ⟨by ring, by ring, by ring⟩

/-- Membership in an image along a map with a two-sided inverse. -/
theorem mem_image_of_inverse {f g : V3 → V3} (hgf : ∀ v, g (f v) = v)
    (hfg : ∀ p, f (g p) = p) (S : Set V3) (p : V3) : p ∈ f '' S ↔ g p ∈ S := by
  constructor
  · rintro ⟨q, hq, rfl⟩
    rw [hgf]; exact hq
  · intro h
    exact ⟨g p, h, hfg p⟩

/-- Open interior of the miter cutting box
`Box(length, frame_depth * 2, length * 4, align=(Align.MIN, Align.CENTER,
Align.CENTER))` in its own frame: `x ∈ (0, length)`,
`y ∈ (-frame_depth, frame_depth)`, `z ∈ (-2*length, 2*length)`.  Only the
open interior is kept because boolean subtraction is regularized: material
exactly on the cutting boundary survives a cut. -/
def miterBoxOpen (len fd : ℝ) : Set V3 :=
  {q | 0 < q.1 ∧ q.1 < len ∧ -fd < q.2.1 ∧ q.2.1 < fd ∧
    -(2 * len) < q.2.2 ∧ q.2.2 < 2 * len}

/-- The first miter cutting volume of each side:
`Box(...).locate(Location((0, frame_depth, 0), (0, 45, 0)))`. -/
def cut_one (len fd : ℝ) : Set V3 := locate (0, fd, 0) 0 45 0 (miterBoxOpen len fd)

/-- The second miter cutting volume of each side:
`Box(...).locate(Location((0, frame_depth, length), (0, -45, 0)))`. -/
def cut_two (len fd : ℝ) : Set V3 := locate (0, fd, len) 0 (-45) 0 (miterBoxOpen len fd)

theorem mem_cut_one (len fd : ℝ) (p : V3) :
    p ∈ cut_one len fd ↔
      (sqh * (p.1 - p.2.2), p.2.1 - fd, sqh * (p.1 + p.2.2)) ∈ miterBoxOpen len fd := by
  unfold cut_one locate
  refine @mem_image_of_inverse _
    (fun w => (sqh * (w.1 - w.2.2), w.2.1 - fd, sqh * (w.1 + w.2.2))) ?_ ?_ _ p
  · rintro ⟨a, b, c⟩
    rw [eulerXYZ_rotY45]
    simp only [Prod.mk_add_mk, Prod.mk.injEq]
    refine ⟨?_, by ring, ?_⟩
    · linear_combination (2 * a) * sqh_mul_self
    · linear_combination (2 * c) * sqh_mul_self
  · rintro ⟨a, b, c⟩
    rw [eulerXYZ_rotY45]
    simp only [Prod.mk_add_mk, Prod.mk.injEq]
    refine ⟨?_, by ring, ?_⟩
    · linear_combination (2 * a) * sqh_mul_self
    · linear_combination (2 * c) * sqh_mul_self

theorem mem_cut_two (len fd : ℝ) (p : V3) :
    p ∈ cut_two len fd ↔
      (sqh * (p.1 + p.2.2 - len), p.2.1 - fd, sqh * (p.2.2 - len - p.1)) ∈
        miterBoxOpen len fd := by
  unfold cut_two locate
  refine @mem_image_of_inverse _
    (fun w => (sqh * (w.1 + w.2.2 - len), w.2.1 - fd, sqh * (w.2.2 - len - w.1))) ?_ ?_ _ p
  · rintro ⟨a, b, c⟩
    rw [eulerXYZ_rotYneg45]
    simp only [Prod.mk_add_mk, Prod.mk.injEq]
    refine ⟨?_, by ring, ?_⟩
    · linear_combination (2 * a) * sqh_mul_self
    · linear_combination (2 * c) * sqh_mul_self
  · rintro ⟨a, b, c⟩
    rw [eulerXYZ_rotYneg45]
    simp only [Prod.mk_add_mk, Prod.mk.injEq]
    refine ⟨?_, by ring, ?_⟩
    · linear_combination (2 * a) * sqh_mul_self
    · linear_combination (2 * (c - len)) * sqh_mul_self

/-- `extrude(create_frame_profile(), amount=length)`: sweep of the profile
cross-section `F` (authored in the XY plane) along +Z over `[0, length]`. -/
def extrudeFace (F : Set V2) (len : ℝ) : Set V3 :=
  {p | (p.1, p.2.1) ∈ F ∧ 0 ≤ p.2.2 ∧ p.2.2 ≤ len}

/-- One frame side after its two miter cuts:
`side.cut(cut_one).cut(cut_two)` (regularized subtraction removes the open
cutting volumes). -/
def miteredSide (F : Set V2) (len fd : ℝ) : Set V3 :=
  (extrudeFace F len \ cut_one len fd) \ cut_two len fd

/-- Placement of the `"left"` side: `Location((0, 0, 0), (90, 0, 0))`. -/
def loc_left (S : Set V3) : Set V3 := locate (0, 0, 0) 90 0 0 S

/-- Placement of the `"right"` side:
`Location((width, -height, 0), (90, 180, 0))`. -/
def loc_right (wd ht : ℝ) (S : Set V3) : Set V3 := locate (wd, -ht, 0) 90 180 0 S

/-- Placement of the `"bottom"` side:
`Location((0, -height, 0), (90, 90, 0))`. -/
def loc_bottom (ht : ℝ) (S : Set V3) : Set V3 := locate (0, -ht, 0) 90 90 0 S

/-- Placement of the `"top"` side:
`Location((width, 0, 0), (90, -90, 0))`. -/
def loc_top (wd : ℝ) (S : Set V3) : Set V3 := locate (wd, 0, 0) 90 (-90) 0 S

theorem mem_loc_left (S : Set V3) (P : V3) :
    P ∈ loc_left S ↔ (P.1, P.2.2, -P.2.1) ∈ S := by
  unfold loc_left locate
  refine @mem_image_of_inverse _ (fun w => (w.1, w.2.2, -w.2.1)) ?_ ?_ _ P
  · rintro ⟨a, b, c⟩
    rw [eulerXYZ_left]
    simp only [Prod.mk_add_mk, Prod.mk.injEq]
    refine ⟨by ring, by ring, by ring⟩
  · rintro ⟨a, b, c⟩
    rw [eulerXYZ_left]
    simp only [Prod.mk_add_mk, Prod.mk.injEq]
    refine ⟨by ring, by ring, by ring⟩

theorem mem_loc_right (wd ht : ℝ) (S : Set V3) (P : V3) :
    P ∈ loc_right wd ht S ↔ (wd - P.1, P.2.2, P.2.1 + ht) ∈ S := by
  unfold loc_right locate
  refine @mem_image_of_inverse _ (fun w => (wd - w.1, w.2.2, w.2.1 + ht)) ?_ ?_ _ P
  · rintro ⟨a, b, c⟩
    rw [eulerXYZ_right]
    simp only [Prod.mk_add_mk, Prod.mk.injEq]
    refine ⟨by ring, by ring, by ring⟩
  · rintro ⟨a, b, c⟩
    rw [eulerXYZ_right]
    simp only [Prod.mk_add_mk, Prod.mk.injEq]
    refine ⟨by ring, by ring, by ring⟩

theorem mem_loc_bottom (ht : ℝ) (S : Set V3) (P : V3) :
    P ∈ loc_bottom ht S ↔ (P.2.1 + ht, P.2.2, P.1) ∈ S := by
  unfold loc_bottom locate
  refine @mem_image_of_inverse _ (fun w => (w.2.1 + ht, w.2.2, w.1)) ?_ ?_ _ P
  · rintro ⟨a, b, c⟩
    rw [eulerXYZ_bottom]
    simp only [Prod.mk_add_mk, Prod.mk.injEq]
    refine ⟨by ring, by ring, by ring⟩
  · rintro ⟨a, b, c⟩
    rw [eulerXYZ_bottom]
    simp only [Prod.mk_add_mk, Prod.mk.injEq]
    refine ⟨by ring, by ring, by ring⟩

theorem mem_loc_top (wd : ℝ) (S : Set V3) (P : V3) :
    P ∈ loc_top wd S ↔ (-P.2.1, P.2.2, wd - P.1) ∈ S := by
  unfold loc_top locate
  refine @mem_image_of_inverse _ (fun w => (-w.2.1, w.2.2, wd - w.1)) ?_ ?_ _ P
  · rintro ⟨a, b, c⟩
    rw [eulerXYZ_top]
    simp only [Prod.mk_add_mk, Prod.mk.injEq]
    refine ⟨by ring, by ring, by ring⟩
  · rintro ⟨a, b, c⟩
    rw [eulerXYZ_top]
    simp only [Prod.mk_add_mk, Prod.mk.injEq]
    refine ⟨by ring, by ring, by ring⟩

/-- The assembled frame `sides[0] + sides[1] + sides[2] + sides[3]`: the
left, right, bottom and top mitered sides, placed and united.  `wd` and `ht`
are the `width` and `height` arguments of `create_picture_frame`, `fd` the
molding depth used by the miter cut boxes, and `F` the profile cross-section
swept along each side. -/
def frame_solid (F : Set V2) (wd ht fd : ℝ) : Set V3 :=
  loc_left (miteredSide F ht fd) ∪ loc_right wd ht (miteredSide F ht fd) ∪
    loc_bottom ht (miteredSide F wd fd) ∪ loc_top wd (miteredSide F wd fd)

/-- A point whose local x does not exceed its local z lies weakly on the kept
side of the first miter plane and is not removed by the first cut. -/
theorem not_mem_cut_one_of_le {len fd : ℝ} {p : V3} (h : p.1 ≤ p.2.2) :
    p ∉ cut_one len fd := by
  rw [mem_cut_one]
  simp only [miterBoxOpen, Set.mem_setOf_eq]
  rintro ⟨h1, -⟩
  nlinarith [sqh_pos]

/-- A point with `x + z ≤ length` lies weakly on the kept side of the second
miter plane and is not removed by the second cut. -/
theorem not_mem_cut_two_of_le {len fd : ℝ} {p : V3} (h : p.1 + p.2.2 ≤ len) :
    p ∉ cut_two len fd := by
  rw [mem_cut_two]
  simp only [miterBoxOpen, Set.mem_setOf_eq]
  rintro ⟨h1, -⟩
  nlinarith [sqh_pos]

/-- Sufficient conditions for a point to survive in a mitered side. -/
theorem mem_miteredSide_of {F : Set V2} {len fd : ℝ} {p : V3}
    (hF : (p.1, p.2.1) ∈ F) (h0 : 0 ≤ p.2.2) (hlen : p.2.2 ≤ len)
    (hc1 : p.1 ≤ p.2.2) (hc2 : p.1 + p.2.2 ≤ len) : p ∈ miteredSide F len fd :=
  ⟨⟨⟨hF, h0, hlen⟩, not_mem_cut_one_of_le hc1⟩, not_mem_cut_two_of_le hc2⟩

/-- Cutting only removes material: a mitered side stays inside its raw
extrusion. -/
theorem miteredSide_subset (F : Set V2) (len fd : ℝ) :
    miteredSide F len fd ⊆ extrudeFace F len := fun _ hp => hp.1.1

/-- x-coordinates attained by a 3D point set. -/
def xCoords (S : Set V3) : Set ℝ := (fun P => P.1) '' S

/-- y-coordinates attained by a 3D point set. -/
def yCoords (S : Set V3) : Set ℝ := (fun P => P.2.1) '' S

/-- z-coordinates attained by a 3D point set. -/
def zCoords (S : Set V3) : Set ℝ := (fun P => P.2.2) '' S

/-- For a valid configuration and any cross-section inside the profile's
bounding rectangle, the assembled frame lies in the closed box
`[0, outer_width] × [-outer_height, 0] × [0, frame_depth + 8]`. -/
theorem frame_solid_subset_box (g : FrameConfig) (F : Set V2) (hg : ValidConfig g)
    (hFr : F ⊆ rect 0 (g.frame_width : ℝ) 0 ((g.frame_depth : ℝ) + 8)) :
    ∀ P ∈ frame_solid F (outerW g : ℝ) (outerH g : ℝ) (g.frame_depth : ℝ),
      0 ≤ P.1 ∧ P.1 ≤ (outerW g : ℝ) ∧ -(outerH g : ℝ) ≤ P.2.1 ∧ P.2.1 ≤ 0 ∧
        0 ≤ P.2.2 ∧ P.2.2 ≤ (g.frame_depth : ℝ) + 8 := by
  obtain ⟨hpw, hph, hfw, -, -, -, -, -⟩ := hg
  have hpwR : (0 : ℝ) < (g.painting_width : ℝ) := by exact_mod_cast hpw
  have hphR : (0 : ℝ) < (g.painting_height : ℝ) := by exact_mod_cast hph
  have hfwR : (0 : ℝ) < (g.frame_width : ℝ) := by exact_mod_cast hfw
  have hW : ((outerW g : ℚ) : ℝ) = (g.painting_width : ℝ) + 2 * (g.frame_width : ℝ) := by
    unfold outerW; push_cast; ring
  have hH : ((outerH g : ℚ) : ℝ) = (g.painting_height : ℝ) + 2 * (g.frame_width : ℝ) := by
    unfold outerH; push_cast; ring
  intro P hP
  rcases hP with ((h | h) | h) | h
  · rw [mem_loc_left] at h
    obtain ⟨hmF, hz0, hzl⟩ := h.1.1
    obtain ⟨hx0, hx1, hy0, hy1⟩ := hFr hmF
    dsimp only at hmF hz0 hzl hx0 hx1 hy0 hy1
    exact ⟨hx0, by linarith, by linarith, by linarith, hy0, hy1⟩
  · rw [mem_loc_right] at h
    obtain ⟨hmF, hz0, hzl⟩ := h.1.1
    obtain ⟨hx0, hx1, hy0, hy1⟩ := hFr hmF
    dsimp only at hmF hz0 hzl hx0 hx1 hy0 hy1
    exact ⟨by linarith, by linarith, by linarith, by linarith, hy0, hy1⟩
  · rw [mem_loc_bottom] at h
    obtain ⟨hmF, hz0, hzl⟩ := h.1.1
    obtain ⟨hx0, hx1, hy0, hy1⟩ := hFr hmF
    dsimp only at hmF hz0 hzl hx0 hx1 hy0 hy1
    exact ⟨hz0, by linarith, by linarith, by linarith, hy0, hy1⟩
  · rw [mem_loc_top] at h
    obtain ⟨hmF, hz0, hzl⟩ := h.1.1
    obtain ⟨hx0, hx1, hy0, hy1⟩ := hFr hmF
    dsimp only at hmF hz0 hzl hx0 hx1 hy0 hy1
    exact ⟨by linarith, by linarith, by linarith, by linarith, hy0, hy1⟩

/-- The point `(0, 0, len/2)` — outer-back corner of the profile, halfway
along the extrusion — survives both miter cuts. -/
theorem outer_corner_mem_miteredSide {F : Set V2} {len fd : ℝ}
    (hF : ((0 : ℝ), (0 : ℝ)) ∈ F) (hlen : 0 ≤ len) :
    ((0 : ℝ), (0 : ℝ), len / 2) ∈ miteredSide F len fd :=
  mem_miteredSide_of hF (by linarith) (by linarith) (by linarith) (by linarith)

/-- A frame point on the left side at mid-height, for any profile point
`(x, y)` with `2 * x ≤ outer_height`. -/
theorem left_mid_mem_frame (g : FrameConfig) (F : Set V2) (hg : ValidConfig g)
    (hFc : profileCurve g ⊆ F) {x y : ℝ} (hxy : (x, y) ∈ profileCurve g)
    (hx : 2 * x ≤ (outerH g : ℝ)) :
    (x, -((outerH g : ℝ) / 2), y) ∈
      frame_solid F (outerW g : ℝ) (outerH g : ℝ) (g.frame_depth : ℝ) := by
  obtain ⟨-, hph, hfw, -, -, -, -, -⟩ := hg
  have hphR : (0 : ℝ) < (g.painting_height : ℝ) := by exact_mod_cast hph
  have hfwR : (0 : ℝ) < (g.frame_width : ℝ) := by exact_mod_cast hfw
  have hH : ((outerH g : ℚ) : ℝ) = (g.painting_height : ℝ) + 2 * (g.frame_width : ℝ) := by
    unfold outerH; push_cast; ring
  refine Or.inl (Or.inl (Or.inl ?_))
  rw [mem_loc_left]
  dsimp only
  rw [neg_neg]
  exact mem_miteredSide_of (hFc hxy) (by linarith) (by linarith) (by linarith) (by linarith)

/-- The world point `(outer_width, -outer_height/2, 0)` — the outer-back
corner line of the right side at mid-height — is in the assembled frame. -/
theorem right_corner_mem_frame (g : FrameConfig) (F : Set V2) (hg : ValidConfig g)
    (hFc : profileCurve g ⊆ F) :
    ((outerW g : ℝ), -((outerH g : ℝ) / 2), (0 : ℝ)) ∈
      frame_solid F (outerW g : ℝ) (outerH g : ℝ) (g.frame_depth : ℝ) := by
  obtain ⟨-, hph, hfw, -, -, -, -, -⟩ := hg
  have hphR : (0 : ℝ) < (g.painting_height : ℝ) := by exact_mod_cast hph
  have hfwR : (0 : ℝ) < (g.frame_width : ℝ) := by exact_mod_cast hfw
  have hH : ((outerH g : ℚ) : ℝ) = (g.painting_height : ℝ) + 2 * (g.frame_width : ℝ) := by
    unfold outerH; push_cast; ring
  refine Or.inl (Or.inl (Or.inr ?_))
  rw [mem_loc_right]
  dsimp only
  rw [sub_self]
  exact mem_miteredSide_of (hFc (origin_mem_profileCurve g)) (by linarith) (by linarith)
    (by linarith) (by linarith)

/-- The world point `(outer_width/2, -outer_height, 0)` — the outer-back
corner line of the bottom side at mid-width — is in the assembled frame. -/
theorem bottom_corner_mem_frame (g : FrameConfig) (F : Set V2) (hg : ValidConfig g)
    (hFc : profileCurve g ⊆ F) :
    ((outerW g : ℝ) / 2, -(outerH g : ℝ), (0 : ℝ)) ∈
      frame_solid F (outerW g : ℝ) (outerH g : ℝ) (g.frame_depth : ℝ) := by
  obtain ⟨hpw, -, hfw, -, -, -, -, -⟩ := hg
  have hpwR : (0 : ℝ) < (g.painting_width : ℝ) := by exact_mod_cast hpw
  have hfwR : (0 : ℝ) < (g.frame_width : ℝ) := by exact_mod_cast hfw
  have hW : ((outerW g : ℚ) : ℝ) = (g.painting_width : ℝ) + 2 * (g.frame_width : ℝ) := by
    unfold outerW; push_cast; ring
  refine Or.inl (Or.inr ?_)
  rw [mem_loc_bottom]
  dsimp only
  rw [neg_add_cancel]
  exact mem_miteredSide_of (hFc (origin_mem_profileCurve g)) (by linarith) (by linarith)
    (by linarith) (by linarith)

/-- The world point `(outer_width/2, 0, 0)` — the outer-back corner line of
the top side at mid-width — is in the assembled frame. -/
theorem top_corner_mem_frame (g : FrameConfig) (F : Set V2) (hg : ValidConfig g)
    (hFc : profileCurve g ⊆ F) :
    ((outerW g : ℝ) / 2, (0 : ℝ), (0 : ℝ)) ∈
      frame_solid F (outerW g : ℝ) (outerH g : ℝ) (g.frame_depth : ℝ) := by
  obtain ⟨hpw, -, hfw, -, -, -, -, -⟩ := hg
  have hpwR : (0 : ℝ) < (g.painting_width : ℝ) := by exact_mod_cast hpw
  have hfwR : (0 : ℝ) < (g.frame_width : ℝ) := by exact_mod_cast hfw
  have hW : ((outerW g : ℚ) : ℝ) = (g.painting_width : ℝ) + 2 * (g.frame_width : ℝ) := by
    unfold outerW; push_cast; ring
  refine Or.inr ?_
  rw [mem_loc_top]
  dsimp only
  rw [neg_zero]
  exact mem_miteredSide_of (hFc (origin_mem_profileCurve g)) (by linarith) (by linarith)
    (by linarith) (by linarith)

/-! ## C1: bounding box of the assembled frame -/

/-- C1 (amended): for every valid parameter set and any cross-section `F`
squeezed between the profile outline and the outline's bounding rectangle
(as the face built by `make_face()` is), the assembled frame attains exactly
the axis-aligned bounding box
`[0, outer_width] × [-outer_height, 0] × [0, frame_depth + 8]`, i.e. the box
extents are `outer_width × outer_height × (frame_depth + 8)`.  The depth
extent is `frame_depth + 8`, not the claimed `frame_depth`: the decorative
Bezier peak rises 8 units above `frame_depth`. -/
theorem frame_solid_bbox_eq (g : FrameConfig) (F : Set V2) (hg : ValidConfig g)
    (hFc : profileCurve g ⊆ F)
    (hFr : F ⊆ rect 0 (g.frame_width : ℝ) 0 ((g.frame_depth : ℝ) + 8)) :
    IsLeast (xCoords (frame_solid F (outerW g : ℝ) (outerH g : ℝ) (g.frame_depth : ℝ))) 0 ∧
      IsGreatest (xCoords (frame_solid F (outerW g : ℝ) (outerH g : ℝ) (g.frame_depth : ℝ)))
        (outerW g : ℝ) ∧
      IsLeast (yCoords (frame_solid F (outerW g : ℝ) (outerH g : ℝ) (g.frame_depth : ℝ)))
        (-(outerH g : ℝ)) ∧
      IsGreatest (yCoords (frame_solid F (outerW g : ℝ) (outerH g : ℝ) (g.frame_depth : ℝ))) 0 ∧
      IsLeast (zCoords (frame_solid F (outerW g : ℝ) (outerH g : ℝ) (g.frame_depth : ℝ))) 0 ∧
      IsGreatest (zCoords (frame_solid F (outerW g : ℝ) (outerH g : ℝ) (g.frame_depth : ℝ)))
        ((g.frame_depth : ℝ) + 8) := by
  have hbox := frame_solid_subset_box g F hg hFr
  have hfw := hg.2.2.1
  have hph := hg.2.1
  have hfwR : (0 : ℝ) < (g.frame_width : ℝ) := by exact_mod_cast hfw
  have hphR : (0 : ℝ) < (g.painting_height : ℝ) := by exact_mod_cast hph
  have hH : ((outerH g : ℚ) : ℝ) = (g.painting_height : ℝ) + 2 * (g.frame_width : ℝ) := by
    unfold outerH; push_cast; ring
  refine ⟨⟨⟨_, left_mid_mem_frame g F hg hFc (origin_mem_profileCurve g) (by linarith), rfl⟩, ?_⟩,
    ⟨⟨_, right_corner_mem_frame g F hg hFc, rfl⟩, ?_⟩,
    ⟨⟨_, bottom_corner_mem_frame g F hg hFc, rfl⟩, ?_⟩,
    ⟨⟨_, top_corner_mem_frame g F hg hFc, rfl⟩, ?_⟩,
    ⟨⟨_, left_mid_mem_frame g F hg hFc (origin_mem_profileCurve g) (by linarith), rfl⟩, ?_⟩,
    ⟨⟨_, left_mid_mem_frame g F hg hFc (peak_mem_profileCurve g) (by linarith), rfl⟩, ?_⟩⟩
  · rintro x ⟨P, hP, rfl⟩
    exact (hbox P hP).1
  · rintro x ⟨P, hP, rfl⟩
    exact (hbox P hP).2.1
  · rintro y ⟨P, hP, rfl⟩
    exact (hbox P hP).2.2.1
  · rintro y ⟨P, hP, rfl⟩
    exact (hbox P hP).2.2.2.1
  · rintro z ⟨P, hP, rfl⟩
    exact (hbox P hP).2.2.2.2.1
  · rintro z ⟨P, hP, rfl⟩
    exact (hbox P hP).2.2.2.2.2

/-- Witness for `frame_solid_bbox_eq`: the default configuration is valid and
the frame built from it attains the depth extent `frame_depth + 8 = 28`. -/
theorem frame_solid_bbox_eq_witness :
    ValidConfig defaultConfig ∧
      IsGreatest (zCoords (frame_solid (profileCurve defaultConfig)
        (outerW defaultConfig : ℝ) (outerH defaultConfig : ℝ)
        (defaultConfig.frame_depth : ℝ))) ((defaultConfig.frame_depth : ℝ) + 8) :=
  ⟨by decide, (frame_solid_bbox_eq defaultConfig (profileCurve defaultConfig) (by decide)
    (fun _ hw => hw) (profileCurve_subset_rect defaultConfig (by decide))).2.2.2.2.2⟩

/-- C1 counterexample: at the default dimensions (outer box `280 × 230`,
`frame_depth = 20`) the assembled frame contains world points at heights
`z = 0` and `z = 28`, so it fits in no slab of depth `frame_depth`: the
claimed bounding box `(280, 230, 20)` cannot contain the solid.  The frame
here sweeps the profile outline itself; the face swept by the pipeline
contains the outline, so its frame only has more points. -/
theorem frame_solid_bbox_claim_cex :
    ¬ ∃ a : ℝ, ∀ P ∈ frame_solid (profileCurve defaultConfig) (outerW defaultConfig : ℝ)
        (outerH defaultConfig : ℝ) (defaultConfig.frame_depth : ℝ),
        a ≤ P.2.2 ∧ P.2.2 ≤ a + (defaultConfig.frame_depth : ℝ) := by
  rintro ⟨a, ha⟩
  have h1 := ha _ (left_mid_mem_frame defaultConfig (profileCurve defaultConfig) (by decide)
    (fun _ hw => hw) (origin_mem_profileCurve defaultConfig)
    (by norm_num [outerH, defaultConfig]))
  have h2 := ha _ (left_mid_mem_frame defaultConfig (profileCurve defaultConfig) (by decide)
    (fun _ hw => hw) (peak_mem_profileCurve defaultConfig)
    (by norm_num [outerH, defaultConfig]))
  dsimp only at h1 h2
  have hfd : (defaultConfig.frame_depth : ℝ) = 20 := by norm_num [defaultConfig]
  rw [hfd] at h1 h2
  linarith [h1.1, h2.2]

/-! ## C10: height of the decorative peak -/

/-- C10 (amended): for every VALID parameter set the profile outline's
largest y-coordinate is exactly `frame_depth + 8` (attained at the decorative
peak, whose control offsets `+8, +4, -5, +5, +1` above `frame_depth` are fixed)
and its smallest is 0, so the profile's y-extent — and with it the depth
extent of every extruded side — exceeds `frame_depth` by exactly 8.  Validity
matters: a parameter set with `rabbet_depth > frame_depth + 8` pushes the
rabbet ledge above the peak (see the counterexample). -/
theorem profile_peak_height_eq (g : FrameConfig) (hg : ValidConfig g) :
    IsGreatest (curveYSet g) ((g.frame_depth : ℝ) + 8) ∧ IsLeast (curveYSet g) 0 :=
  ⟨curveY_isGreatest g hg, curveY_isLeast g hg⟩

/-- Witness for `profile_peak_height_eq` at the default configuration:
the maximum profile height evaluates to 28 = 20 + 8. -/
theorem profile_peak_height_eq_witness :
    ValidConfig defaultConfig ∧ IsGreatest (curveYSet defaultConfig) 28 := by
  refine ⟨by decide, ?_⟩
  have h := (profile_peak_height_eq defaultConfig (by decide)).1
  norm_num [defaultConfig] at h
  exact h

/-- The parameter set refuting C10's unrestricted "for every parameter set":
all dimensions positive, but the rabbet is 30 deep, above the decorative peak
(`frame_depth + 8 = 28`). -/
def deepRabbetConfig : FrameConfig :=
  { defaultConfig with rabbet_depth := 30 }

/-- C10 counterexample: with `rabbet_depth = 30` the outline contains the
rabbet-step corner `(32, 30)`, whose y-coordinate 30 exceeds
`frame_depth + 8 = 28`, so the profile's maximum y-coordinate is not
`frame_depth + 8` for every parameter set (only for valid ones). -/
theorem profile_peak_height_cex :
    ((32 : ℝ), (30 : ℝ)) ∈ profileCurve deepRabbetConfig ∧
      ¬ IsGreatest (curveYSet deepRabbetConfig)
        ((deepRabbetConfig.frame_depth : ℝ) + 8) := by
  have hmem : ((32 : ℝ), (30 : ℝ)) ∈ profileCurve deepRabbetConfig := by
    have h := rabbetTop_mem_profileCurve deepRabbetConfig
    norm_num [deepRabbetConfig, defaultConfig] at h
    exact h
  refine ⟨hmem, ?_⟩
  rintro ⟨-, hub⟩
  have h30 := hub ⟨_, hmem, rfl⟩
  norm_num [deepRabbetConfig, defaultConfig] at h30

/-! ## C4: size of the miter cutting volumes -/

/-- A valid parameter set with a shallow molding (`frame_depth = 5 < 8`):
the miter cut box is then only `2 * 5 = 10` tall while the profile is
`5 + 8 = 13` tall. -/
def shallowConfig : FrameConfig :=
  { painting_width := 100
    painting_height := 80
    frame_width := 10
    frame_depth := 5
    rabbet_width := 2
    rabbet_depth := 2 }

/-- C4 counterexample: at the valid parameter set `shallowConfig` the miter
cut box's y-extent `2 * frame_depth = 10` does NOT exceed the profile's
y-extent `frame_depth + 8 = 13`, and the cut indeed fails to traverse: the
point `(6, 13, 1)` of the bottom side (the decorative peak at z = 1) lies
strictly beyond the start miter plane (x = 6 > z = 1) yet survives both cuts,
so the mitered solid keeps material past the miter. -/
theorem miter_box_too_shallow_cex :
    ValidConfig shallowConfig ∧
      ¬ ((shallowConfig.frame_depth : ℝ) + 8 - 0 < 2 * (shallowConfig.frame_depth : ℝ)) ∧
      ((6 : ℝ), (13 : ℝ), (1 : ℝ)) ∈ miteredSide (profileCurve shallowConfig)
        (outerW shallowConfig : ℝ) (shallowConfig.frame_depth : ℝ) := by
  refine ⟨by decide, by norm_num [shallowConfig], ⟨⟨?_, ?_⟩, ?_⟩⟩
  · refine ⟨?_, by norm_num, by norm_num [outerW, shallowConfig]⟩
    have h := peak_mem_profileCurve shallowConfig
    norm_num [shallowConfig] at h
    exact h
  · rw [mem_cut_one]
    simp only [miterBoxOpen, Set.mem_setOf_eq]
    rintro ⟨-, -, -, hy, -⟩
    norm_num [shallowConfig] at hy
  · rw [mem_cut_two]
    simp only [miterBoxOpen, Set.mem_setOf_eq]
    rintro ⟨hx, -⟩
    have hW : ((outerW shallowConfig : ℚ) : ℝ) = 120 := by
      norm_num [outerW, shallowConfig]
    rw [hW] at hx
    nlinarith [sqh_pos]

/-- C4 (amended): for a valid parameter set with `frame_depth > 8` the miter
cutting boxes are large enough: their extent strictly exceeds the profile
cross-section's extent in both non-extrusion axes (`side length > frame_width`
and `2 * frame_depth > frame_depth + 8`), their extrusion-axis extent
`4 * length` exceeds the solid's length, and the cuts then fully traverse the
solid: every extruded point strictly interior in y that lies strictly beyond
a miter plane is removed by the corresponding cut, and the mitered side is
still nonempty. -/
theorem miter_box_exceeds_profile (g : FrameConfig) (F : Set V2) (len : ℝ)
    (hg : ValidConfig g) (hfd8 : 8 < g.frame_depth)
    (hFr : F ⊆ rect 0 (g.frame_width : ℝ) 0 ((g.frame_depth : ℝ) + 8))
    (hlen : (g.frame_width : ℝ) < len) :
    ((g.frame_width : ℝ) - 0 < len ∧
      (g.frame_depth : ℝ) + 8 - 0 < 2 * (g.frame_depth : ℝ) ∧ len < 4 * len) ∧
    (∀ p ∈ extrudeFace F len, 0 < p.2.1 → p.2.2 < p.1 → p ∈ cut_one len (g.frame_depth : ℝ)) ∧
    (∀ p ∈ extrudeFace F len, 0 < p.2.1 → len < p.1 + p.2.2 →
      p ∈ cut_two len (g.frame_depth : ℝ)) ∧
    (((0 : ℝ), (0 : ℝ)) ∈ F → (miteredSide F len (g.frame_depth : ℝ)).Nonempty) := by
  obtain ⟨-, -, hfw, hfd, -, -, -, -⟩ := hg
  have hfwR : (0 : ℝ) < (g.frame_width : ℝ) := by exact_mod_cast hfw
  have hfdR : (8 : ℝ) < (g.frame_depth : ℝ) := by exact_mod_cast hfd8
  have hsq1 : sqh < 1 := by
    have h2 : Real.sqrt 2 < 2 := by
      nlinarith [Real.sq_sqrt (by norm_num : (0:ℝ) ≤ 2),
        Real.sqrt_nonneg (2 : ℝ)]
    unfold sqh
    linarith
  refine ⟨⟨by linarith, by linarith, by linarith⟩, ?_, ?_, ?_⟩
  · rintro p ⟨hmF, hz0, hzl⟩ hy0 hbeyond
    obtain ⟨hx0, hx1, hy0R, hy1⟩ := hFr hmF
    rw [mem_cut_one]
    simp only [miterBoxOpen, Set.mem_setOf_eq]
    refine ⟨by nlinarith [sqh_pos], ?_, by linarith [sqh_pos], by linarith, ?_, ?_⟩
    · nlinarith [sqh_pos]
    · nlinarith [sqh_pos]
    · nlinarith [sqh_pos]
  · rintro p ⟨hmF, hz0, hzl⟩ hy0 hbeyond
    obtain ⟨hx0, hx1, hy0R, hy1⟩ := hFr hmF
    rw [mem_cut_two]
    simp only [miterBoxOpen, Set.mem_setOf_eq]
    refine ⟨by nlinarith [sqh_pos], ?_, by linarith [sqh_pos], by linarith, ?_, ?_⟩
    · nlinarith [sqh_pos]
    · nlinarith [sqh_pos]
    · nlinarith [sqh_pos]
  · intro h00
    exact ⟨_, outer_corner_mem_miteredSide h00 (by linarith)⟩

/-- Witness for `miter_box_exceeds_profile`: the default configuration is
valid, has `frame_depth = 20 > 8`, and its left/right side length
`outer_height = 230` exceeds `frame_width = 40`. -/
theorem miter_box_exceeds_profile_witness :
    ValidConfig defaultConfig ∧ (8 : ℚ) < defaultConfig.frame_depth ∧
      ((defaultConfig.frame_width : ℝ) - 0 < (outerH defaultConfig : ℝ) ∧
        (defaultConfig.frame_depth : ℝ) + 8 - 0 < 2 * (defaultConfig.frame_depth : ℝ) ∧
        (outerH defaultConfig : ℝ) < 4 * (outerH defaultConfig : ℝ)) := by
  refine ⟨by decide, by decide, ?_⟩
  exact (miter_box_exceeds_profile defaultConfig (profileCurve defaultConfig)
    (outerH defaultConfig : ℝ) (by decide) (by decide)
    (profileCurve_subset_rect defaultConfig (by decide))
    (by norm_num [outerH, defaultConfig])).1

/-! ## C2: shape of the profile outline -/

/-- The outline structure asserted by C2: the four named straight segments,
then THREE chained CUBIC Bezier arcs from the inner-top corner to the
outer-top corner, then the closing straight segment. -/
def claimedOutlineStructure (g : FrameConfig) : Prop :=
  ∃ b1 b2 b3 c1 c2 d1 d2 d3 : ℚ × ℚ,
    create_frame_profile_outline g =
      [SegQ.line (0, 0) (g.frame_width - g.rabbet_width, 0),
        SegQ.line (g.frame_width - g.rabbet_width, 0)
          (g.frame_width - g.rabbet_width, g.rabbet_depth),
        SegQ.line (g.frame_width - g.rabbet_width, g.rabbet_depth)
          (g.frame_width, g.rabbet_depth),
        SegQ.line (g.frame_width, g.rabbet_depth) (g.frame_width, g.frame_depth),
        SegQ.cubicBez (g.frame_width, g.frame_depth) b1 b2 b3,
        SegQ.cubicBez b3 c1 c2 d1,
        SegQ.cubicBez d1 d2 d3 (0, g.frame_depth),
        SegQ.line (0, g.frame_depth) (0, 0)]

/-- C2 counterexample: already at the default configuration the outline is
not four lines, three chained cubic arcs and a closing line: its seventh
segment is `Bezier` called with THREE control points, a quadratic arc, and
every control point of the three claimed cubics other than the chained
endpoints `(frame_width, frame_depth)` and `(0, frame_depth)` is left
existentially free, so no choice of control points realises the claimed
structure — any cubic constructor at position seven already disagrees with
the actual quadratic constructor. -/
theorem claimed_outline_structure_cex : ¬ claimedOutlineStructure defaultConfig := by
  rintro ⟨b1, b2, b3, c1, c2, d1, d2, d3, heq⟩
  rw [create_frame_profile_outline_eq] at heq
  simp only [List.cons.injEq] at heq
  exact SegQ.noConfusion heq.2.2.2.2.2.2.1

/-- C2 (amended): for every parameter set the outline consists, in order, of
the four claimed straight segments `(0,0) → (fw-rw,0) → (fw-rw,rd) → (fw,rd)
→ (fw,fd)`, then TWO cubic Bezier arcs and ONE QUADRATIC Bezier arc chained
from the inner-top corner `(fw,fd)` to the outer-top corner `(0,fd)`, then
the closing straight segment back to `(0,0)`; consecutive segments share
endpoints and the outline closes (last endpoint = first point).  The segment
degrees are `[1,1,1,1,3,3,2,1]`: the third decorative arc is quadratic, not
cubic. -/
theorem profile_outline_structure (g : FrameConfig) :
    create_frame_profile_outline g =
      [SegQ.line (0, 0) (g.frame_width - g.rabbet_width, 0),
        SegQ.line (g.frame_width - g.rabbet_width, 0)
          (g.frame_width - g.rabbet_width, g.rabbet_depth),
        SegQ.line (g.frame_width - g.rabbet_width, g.rabbet_depth)
          (g.frame_width, g.rabbet_depth),
        SegQ.line (g.frame_width, g.rabbet_depth) (g.frame_width, g.frame_depth),
        SegQ.cubicBez (g.frame_width, g.frame_depth) (g.frame_width * 0.85, g.frame_depth + 4)
          (g.frame_width * 0.75, g.frame_depth + 8) (g.frame_width * 0.6, g.frame_depth + 8),
        SegQ.cubicBez (g.frame_width * 0.6, g.frame_depth + 8)
          (g.frame_width * 0.45, g.frame_depth + 8)
          (g.frame_width * 0.4, g.frame_depth + 8 - 5) (g.frame_width * 0.2, g.frame_depth + 5),
        SegQ.quadBez (g.frame_width * 0.2, g.frame_depth + 5)
          (g.frame_width * 0.05, g.frame_depth + 1) (0, g.frame_depth),
        SegQ.line (0, g.frame_depth) (0, 0)] ∧
    List.Chain' (fun s1 s2 => s1.endPt = s2.startPt) (create_frame_profile_outline g) ∧
    (create_frame_profile_outline g).getLast?.map SegQ.endPt =
      (create_frame_profile_outline g).head?.map SegQ.startPt ∧
    (create_frame_profile_outline g).map SegQ.degree = [1, 1, 1, 1, 3, 3, 2, 1] := by
  refine ⟨create_frame_profile_outline_eq g, ?_, ?_, ?_⟩
  · rw [create_frame_profile_outline_eq]
    simp [SegQ.endPt, SegQ.startPt]
  · rw [create_frame_profile_outline_eq]
    rfl
  · rw [create_frame_profile_outline_eq]
    rfl

/-! ## C5: error handling of the profile builder -/

/-- Whether a segment is a `Line` call with coincident endpoints.
`build123d.Line` builds its edge with OCCT's `BRepBuilderAPI_MakeEdge`,
which rejects a line through identical points, so such a call raises while
the profile is being authored — a kernel edge-construction error, not a
`DegenerateProfile` error. -/
def SegQ.isDegenerateLine : SegQ → Bool
  | .line p q => p == q
  | _ => false

/-- Outcome of running `create_frame_profile` with the geometry kernel's
edge semantics: the spec's `DegenerateProfile` error (which no code path
produces), the kernel's edge-construction failure on a zero-length `Line`,
or the authored outline. -/
inductive BuildOutcome where
  | ok (outline : List SegQ)
  | degenerateProfile
  | kernelEdgeError
  deriving DecidableEq, Repr

/-- `create_frame_profile` including the kernel's behavior on degenerate
edges: if some `Line` call of the outline has coincident endpoints, the
kernel raises while the outline is being authored (modelled as
`kernelEdgeError`); otherwise all edge constructors succeed and the outline
is authored in full.  (`make_face()` is likewise a kernel constructor with
no `DegenerateProfile` error path.) -/
def create_frame_profile_run (g : FrameConfig) : BuildOutcome :=
  if (create_frame_profile_outline g).any SegQ.isDegenerateLine then
    BuildOutcome.kernelEdgeError
  else BuildOutcome.ok (create_frame_profile_outline g)

/-- C5 counterexample: at `deepRabbetConfig` — `rabbet_depth = 30 ≥
frame_depth = 20`, inside the region where the claim requires a
`DegenerateProfile` failure — every `Line` call of the builder has distinct
endpoints, so every edge constructor succeeds and the outline is authored in
full; in particular the builder does NOT fail with `DegenerateProfile`
(no such error path exists anywhere in the source), so the claimed
equivalence is false. -/
theorem degenerate_profile_never_signalled_cex :
    deepRabbetConfig.frame_depth ≤ deepRabbetConfig.rabbet_depth ∧
      create_frame_profile_run deepRabbetConfig =
        BuildOutcome.ok (create_frame_profile_outline deepRabbetConfig) ∧
      create_frame_profile_run deepRabbetConfig ≠ BuildOutcome.degenerateProfile := by
  have hb : (create_frame_profile_outline deepRabbetConfig).any SegQ.isDegenerateLine = false := by
    rw [create_frame_profile_outline_eq]
    norm_num [SegQ.isDegenerateLine, List.any_cons, beq_iff_eq, Prod.mk.injEq,
      deepRabbetConfig, defaultConfig]
    simp [Prod.ext_iff]
  have hrun : create_frame_profile_run deepRabbetConfig =
      BuildOutcome.ok (create_frame_profile_outline deepRabbetConfig) := by
    unfold create_frame_profile_run
    rw [hb]
    simp
  refine ⟨by decide, hrun, ?_⟩
  rw [hrun]
  exact fun h => BuildOutcome.noConfusion h

/-- C5 (amended): the builder never fails with `DegenerateProfile` — no such
error path exists in the source, for any parameter set.  Its only failure
while authoring the outline is the geometry kernel's: a zero-length `Line`
edge, which happens exactly when `rabbet_width = frame_width` (`l1`),
`rabbet_depth = 0` (`l2`), `rabbet_width = 0` (`l3`),
`rabbet_depth = frame_depth` (`l4`) or `frame_depth = 0` (`l5`); on every
other parameter set — in particular on every valid one — the outline is
authored in full and returned without error. -/
theorem create_frame_profile_run_spec (g : FrameConfig) :
    create_frame_profile_run g ≠ BuildOutcome.degenerateProfile ∧
      (create_frame_profile_run g = BuildOutcome.kernelEdgeError ↔
        (g.rabbet_width = g.frame_width ∨ g.rabbet_depth = 0 ∨ g.rabbet_width = 0 ∨
          g.rabbet_depth = g.frame_depth ∨ g.frame_depth = 0)) ∧
      (ValidConfig g →
        create_frame_profile_run g = BuildOutcome.ok (create_frame_profile_outline g)) := by
  have hcond : ((create_frame_profile_outline g).any SegQ.isDegenerateLine = true) ↔
      (g.rabbet_width = g.frame_width ∨ g.rabbet_depth = 0 ∨ g.rabbet_width = 0 ∨
        g.rabbet_depth = g.frame_depth ∨ g.frame_depth = 0) := by
    rw [create_frame_profile_outline_eq]
    simp only [List.any_cons, List.any_nil, SegQ.isDegenerateLine, beq_iff_eq, Prod.mk.injEq,
      Bool.or_eq_true, Bool.or_false, decide_eq_true_eq, and_true, true_and,
      Bool.false_eq_true, false_or, or_false]
    constructor
    · rintro (h | h | h | h | h)
      · exact Or.inl (by linarith)
      · exact Or.inr (Or.inl h.symm)
      · exact Or.inr (Or.inr (Or.inl (by linarith)))
      · exact Or.inr (Or.inr (Or.inr (Or.inl h)))
      · exact Or.inr (Or.inr (Or.inr (Or.inr h)))
    · rintro (h | h | h | h | h)
      · exact Or.inl (by linarith)
      · exact Or.inr (Or.inl h.symm)
      · exact Or.inr (Or.inr (Or.inl (by linarith)))
      · exact Or.inr (Or.inr (Or.inr (Or.inl h)))
      · exact Or.inr (Or.inr (Or.inr (Or.inr h)))
  refine ⟨?_, ?_, ?_⟩
  · unfold create_frame_profile_run
    split
    · intro h
      exact BuildOutcome.noConfusion h
    · intro h
      exact BuildOutcome.noConfusion h
  · unfold create_frame_profile_run
    constructor
    · intro he
      by_cases hb : (create_frame_profile_outline g).any SegQ.isDegenerateLine = true
      · exact hcond.mp hb
      · rw [if_neg hb] at he
        exact absurd he (fun h => BuildOutcome.noConfusion h)
    · intro hd
      rw [if_pos (hcond.mpr hd)]
  · intro hv
    obtain ⟨-, -, -, hfd, hrw, hrd, hrwfw, hrdfd⟩ := hv
    unfold create_frame_profile_run
    rw [if_neg ?_]
    intro hb
    rcases hcond.mp hb with h | h | h | h | h <;> linarith

/-- Witness for `create_frame_profile_run_spec`: the default configuration
is valid and the builder authors and returns its outline without error. -/
theorem create_frame_profile_run_spec_witness :
    ValidConfig defaultConfig ∧
      create_frame_profile_run defaultConfig =
        BuildOutcome.ok (create_frame_profile_outline defaultConfig) :=
  ⟨by decide, (create_frame_profile_run_spec defaultConfig).2.2 (by decide)⟩

/-! ## C7: the two miter cuts commute -/

/-- C7: the two miter-cut boolean subtractions commute: subtracting the
start cutting volume and then the end cutting volume from the extruded side
yields exactly the solid obtained by subtracting them in the opposite
order. -/
theorem miter_cuts_commute (F : Set V2) (len fd : ℝ) :
    miteredSide F len fd = (extrudeFace F len \ cut_two len fd) \ cut_one len fd := by
  unfold miteredSide
  ext p
  constructor
  · rintro ⟨⟨hA, h1⟩, h2⟩
    exact ⟨⟨hA, h2⟩, h1⟩
  · rintro ⟨⟨hA, h2⟩, h1⟩
    exact ⟨⟨hA, h1⟩, h2⟩

/-! ## The `create_picture_frame` pipeline as a state-passing fold -/

/-- One value of the `orientations` dict in `create_picture_frame`: the
`Location` position and rotation tuple and the extrusion length `len`. -/
structure SideJob where
  pos : V3
  rot : V3
  len : ℝ

/-- The `orientations` dict in source order — `left, right, bottom, top`:
`left (0,0,0)/(90,0,0)` and `right (width,-height,0)/(90,180,0)` with length
`height`, `bottom (0,-height,0)/(90,90,0)` and `top (width,0,0)/(90,-90,0)`
with length `width`. -/
def orientations (width height : ℝ) : List SideJob :=
  [⟨(0, 0, 0), (90, 0, 0), height⟩,
    ⟨(width, -height, 0), (90, 180, 0), height⟩,
    ⟨(0, -height, 0), (90, 90, 0), width⟩,
    ⟨(width, 0, 0), (90, -90, 0), width⟩]

/-- One iteration of the `for side, props in orientations.items()` loop,
threading the module constants as explicit state: it builds a FRESH profile
from the current state (`create_frame_profile()` is called inside the loop),
extrudes it by the side's length, subtracts the two miter cut volumes, places
the result and appends it to the accumulated list.  The state component is
returned as read: the body assigns no module constant. -/
def sideLoopStep (st : FrameConfig × List (Set V3)) (j : SideJob) :
    FrameConfig × List (Set V3) :=
  match create_frame_profile st.1 with
  | .ok outline =>
      (st.1, st.2 ++ [locate j.pos j.rot.1 j.rot.2.1 j.rot.2.2
        ((extrudeFace (outlinePoints outline) j.len \
            cut_one j.len (st.1.frame_depth : ℝ)) \
          cut_two j.len (st.1.frame_depth : ℝ))])
  | .degenerateProfile => (st.1, st.2)

/-- `create_picture_frame(width, height)` as a state-passing pipeline: fold
the loop over `orientations`, then union `sides[0] + sides[1] + sides[2] +
sides[3]`.  Returns the module state alongside the frame. -/
def create_picture_frame (g : FrameConfig) (width height : ℝ) :
    FrameConfig × Set V3 :=
  let r := (orientations width height).foldl sideLoopStep (g, [])
  (r.1, r.2.getD 0 ∅ ∪ r.2.getD 1 ∅ ∪ r.2.getD 2 ∅ ∪ r.2.getD 3 ∅)

/-- `create_picture_frame()` at its default arguments
`width = painting_width + 2*frame_width`,
`height = painting_height + 2*frame_width`. -/
def create_picture_frame_default (g : FrameConfig) : FrameConfig × Set V3 :=
  create_picture_frame g (outerW g : ℝ) (outerH g : ℝ)

/-- The pipeline computes exactly the assembled `frame_solid` over the
profile outline, and does not touch the state. -/
theorem create_picture_frame_eq (g : FrameConfig) (width height : ℝ) :
    create_picture_frame g width height =
      (g, frame_solid (profileCurve g) width height (g.frame_depth : ℝ)) := rfl

/-- The side built by one loop iteration, as a pure function of the module
state and the orientation entry alone. -/
def sideSolid (g : FrameConfig) (j : SideJob) : Set V3 :=
  locate j.pos j.rot.1 j.rot.2.1 j.rot.2.2
    (miteredSide (profileCurve g) j.len (g.frame_depth : ℝ))

/-- The loop fold, from any starting accumulator: the state is never written
and the new sides are the pure per-side solids, appended in order. -/
theorem sideLoop_foldl_spec (js : List SideJob) :
    ∀ st : FrameConfig × List (Set V3),
      (js.foldl sideLoopStep st).1 = st.1 ∧
        (js.foldl sideLoopStep st).2 = st.2 ++ js.map (sideSolid st.1) := by
  induction js with
  | nil => intro st; simp
  | cons j js ih =>
      intro st
      have hstep : sideLoopStep st j =
          (st.1, st.2 ++ [sideSolid st.1 j]) := rfl
      rw [List.foldl_cons, hstep]
      obtain ⟨h1, h2⟩ := ih (st.1, st.2 ++ [sideSolid st.1 j])
      refine ⟨h1, ?_⟩
      rw [h2]
      simp

/-! ## C8: determinism of the pipeline -/

/-- C8: the pipeline is deterministic and stateless: one invocation leaves
the module dimension constants untouched, and invoking it again with the
same arguments from the state the first invocation returned yields a
set-identical solid — in particular one with the same volume and the same
bounding box. -/
theorem create_picture_frame_deterministic (g : FrameConfig) (width height : ℝ) :
    (create_picture_frame g width height).1 = g ∧
      (create_picture_frame (create_picture_frame g width height).1 width height).2 =
        (create_picture_frame g width height).2 := by
  have h := (sideLoop_foldl_spec (orientations width height) (g, [])).1
  exact ⟨h, by rw [create_picture_frame_eq, create_picture_frame_eq]⟩

/-! ## C9: no shared mutable state between sides -/

/-- C9: boolean cuts and placements on one side never mutate state shared
with another side: every prefix of the side loop leaves the module dimension
constants unchanged, each iteration consumes a profile built anew from that
unchanged state, and the accumulated solids after the loop are exactly the
pure per-side solids `sideSolid g j` of the four orientation entries, each a
function of the module constants and its own entry only — so building one
side changes neither the inputs nor the solids of any other side (later
iterations only append). -/
theorem sides_do_not_interfere (g : FrameConfig) (width height : ℝ) :
    ((orientations width height).foldl sideLoopStep (g, [])).1 = g ∧
      ((orientations width height).foldl sideLoopStep (g, [])).2 =
        (orientations width height).map (sideSolid g) ∧
      (∀ js : List SideJob, ∀ st : FrameConfig × List (Set V3),
        (js.foldl sideLoopStep st).1 = st.1 ∧
          (js.foldl sideLoopStep st).2 = st.2 ++ js.map (sideSolid st.1)) := by
  refine ⟨(sideLoop_foldl_spec _ _).1, ?_, fun js st => sideLoop_foldl_spec js st⟩
  have h := (sideLoop_foldl_spec (orientations width height) ((g, []) : FrameConfig × List (Set V3))).2
  simpa using h

/-! ## C3: geometry of the miter cuts -/

/-- The start cutting volume as the spec's words describe it: the miter box
anchored at `(0, frame_depth, 0)` but rotated +45 degrees about the local X
axis — the axis perpendicular to both the extrusion direction (local Z) and
the profile's depth direction (local Y). -/
def claimedCutStartX (len fd : ℝ) : Set V3 := locate (0, fd, 0) 45 0 0 (miterBoxOpen len fd)

/-- The same described volume with the opposite sign of rotation about the
local X axis. -/
def claimedCutStartXneg (len fd : ℝ) : Set V3 :=
  locate (0, fd, 0) (-45) 0 0 (miterBoxOpen len fd)

theorem mem_claimedCutStartX (len fd : ℝ) (p : V3) :
    p ∈ claimedCutStartX len fd ↔
      (p.1, sqh * (p.2.1 - fd + p.2.2), sqh * (p.2.2 - (p.2.1 - fd))) ∈
        miterBoxOpen len fd := by
  unfold claimedCutStartX locate
  refine @mem_image_of_inverse _
    (fun w => (w.1, sqh * (w.2.1 - fd + w.2.2), sqh * (w.2.2 - (w.2.1 - fd)))) ?_ ?_ _ p
  · rintro ⟨a, b, c⟩
    rw [eulerXYZ_rotX45]
    simp only [Prod.mk_add_mk, Prod.mk.injEq]
    refine ⟨by ring, ?_, ?_⟩
    · linear_combination (2 * b) * sqh_mul_self
    · linear_combination (2 * c) * sqh_mul_self
  · rintro ⟨a, b, c⟩
    rw [eulerXYZ_rotX45]
    simp only [Prod.mk_add_mk, Prod.mk.injEq]
    refine ⟨by ring, ?_, ?_⟩
    · linear_combination (2 * (b - fd)) * sqh_mul_self
    · linear_combination (2 * c) * sqh_mul_self

theorem mem_claimedCutStartXneg (len fd : ℝ) (p : V3) :
    p ∈ claimedCutStartXneg len fd ↔
      (p.1, sqh * (p.2.1 - fd - p.2.2), sqh * (p.2.1 - fd + p.2.2)) ∈
        miterBoxOpen len fd := by
  unfold claimedCutStartXneg locate
  refine @mem_image_of_inverse _
    (fun w => (w.1, sqh * (w.2.1 - fd - w.2.2), sqh * (w.2.1 - fd + w.2.2))) ?_ ?_ _ p
  · rintro ⟨a, b, c⟩
    rw [eulerXYZ_rotXneg45]
    simp only [Prod.mk_add_mk, Prod.mk.injEq]
    refine ⟨by ring, ?_, ?_⟩
    · linear_combination (2 * b) * sqh_mul_self
    · linear_combination (2 * c) * sqh_mul_self
  · rintro ⟨a, b, c⟩
    rw [eulerXYZ_rotXneg45]
    simp only [Prod.mk_add_mk, Prod.mk.injEq]
    refine ⟨by ring, ?_, ?_⟩
    · linear_combination (2 * (b - fd)) * sqh_mul_self
    · linear_combination (2 * c) * sqh_mul_self

/-- C3 counterexample: at the left side of the default configuration
(`length = 230`, `frame_depth = 20`) the actual start cutting volume — the
box rotated about the local Y axis — is NOT the volume described by the
claim (the box rotated about the axis perpendicular to the extrusion and
depth directions, i.e. local X), with either sign of the 45-degree angle:
the point `(0,20,0) + RotY(45°)(229, 0, 0)` lies in the actual cut volume
but in neither described volume. -/
theorem miter_cut_axis_cex :
    cut_one 230 20 ≠ claimedCutStartX 230 20 ∧
      cut_one 230 20 ≠ claimedCutStartXneg 230 20 := by
  have hmem : ((229 * sqh, 20, -(229 * sqh)) : V3) ∈ cut_one 230 20 := by
    rw [mem_cut_one]
    simp only [miterBoxOpen, Set.mem_setOf_eq]
    refine ⟨?_, ?_, ?_, ?_, ?_, ?_⟩ <;> nlinarith [sqh_mul_self, sqh_pos]
  constructor
  · intro heq
    rw [heq, mem_claimedCutStartX] at hmem
    simp only [miterBoxOpen, Set.mem_setOf_eq] at hmem
    obtain ⟨-, -, hy, -⟩ := hmem
    nlinarith [sqh_mul_self, sqh_pos]
  · intro heq
    rw [heq, mem_claimedCutStartXneg] at hmem
    simp only [miterBoxOpen, Set.mem_setOf_eq] at hmem
    obtain ⟨-, -, -, hy, -⟩ := hmem
    nlinarith [sqh_mul_self, sqh_pos]

/-- The points of a mitered side lying on the start miter plane `x = z` are
exactly the profile cross-section laid into that plane, provided every
profile point has `0 ≤ x` and `2 * x ≤ length`. -/
theorem miteredSide_startFace (F : Set V2) (len fd : ℝ)
    (hF : ∀ w ∈ F, 0 ≤ w.1 ∧ 2 * w.1 ≤ len) :
    miteredSide F len fd ∩ {p : V3 | p.1 = p.2.2} =
      (fun w : V2 => (w.1, w.2, w.1)) '' F := by
  ext P
  obtain ⟨X, Y, Z⟩ := P
  constructor
  · rintro ⟨hp, hplane⟩
    obtain ⟨⟨⟨hmF, -, -⟩, -⟩, -⟩ := hp
    dsimp only at hmF
    simp only [Set.mem_setOf_eq] at hplane
    refine ⟨(X, Y), hmF, ?_⟩
    dsimp only
    rw [hplane]
  · rintro ⟨w, hw, hweq⟩
    obtain ⟨hw0, hw2⟩ := hF w hw
    simp only [Prod.mk.injEq] at hweq
    obtain ⟨e1, e2, e3⟩ := hweq
    subst e1
    subst e2
    subst e3
    refine ⟨mem_miteredSide_of ?_ ?_ ?_ ?_ ?_, ?_⟩
    · dsimp only
      rw [Prod.mk.eta]
      exact hw
    · dsimp only
      linarith
    · dsimp only
      linarith
    · dsimp only
      exact le_rfl
    · dsimp only
      linarith
    · simp only [Set.mem_setOf_eq]

/-- The points of a mitered side lying on the end miter plane `x + z = len`
are exactly the profile cross-section laid into that plane, under the same
width bound. -/
theorem miteredSide_endFace (F : Set V2) (len fd : ℝ)
    (hF : ∀ w ∈ F, 0 ≤ w.1 ∧ 2 * w.1 ≤ len) :
    miteredSide F len fd ∩ {p : V3 | p.1 + p.2.2 = len} =
      (fun w : V2 => (w.1, w.2, len - w.1)) '' F := by
  ext P
  obtain ⟨X, Y, Z⟩ := P
  constructor
  · rintro ⟨hp, hplane⟩
    obtain ⟨⟨⟨hmF, -, -⟩, -⟩, -⟩ := hp
    dsimp only at hmF
    simp only [Set.mem_setOf_eq] at hplane
    refine ⟨(X, Y), hmF, ?_⟩
    dsimp only
    have hz : len - X = Z := by linarith
    rw [hz]
  · rintro ⟨w, hw, hweq⟩
    obtain ⟨hw0, hw2⟩ := hF w hw
    simp only [Prod.mk.injEq] at hweq
    obtain ⟨e1, e2, e3⟩ := hweq
    subst e1
    subst e2
    subst e3
    refine ⟨mem_miteredSide_of ?_ ?_ ?_ ?_ ?_, ?_⟩
    · dsimp only
      rw [Prod.mk.eta]
      exact hw
    · dsimp only
      linarith
    · dsimp only
      linarith
    · dsimp only
      linarith
    · dsimp only
      linarith
    · simp only [Set.mem_setOf_eq]
      ring

/-- The `(0, 45, 0)` Euler rotation is exactly rotation about the Y axis by
`π/4`. -/
theorem eulerXYZ_eq_rotY45 (q : V3) : eulerXYZ 0 45 0 q = rotY (Real.pi / 4) q := by
  obtain ⟨a, b, c⟩ := q
  rw [eulerXYZ_rotY45]
  unfold rotY sqh
  rw [Real.cos_pi_div_four, Real.sin_pi_div_four]
  simp only [Prod.mk.injEq]
  refine ⟨by ring, trivial, by ring⟩

/-- The `(0, -45, 0)` Euler rotation is exactly rotation about the Y axis by
`-π/4`. -/
theorem eulerXYZ_eq_rotYneg45 (q : V3) :
    eulerXYZ 0 (-45) 0 q = rotY (-(Real.pi / 4)) q := by
  obtain ⟨a, b, c⟩ := q
  rw [eulerXYZ_rotYneg45]
  unfold rotY sqh
  rw [Real.cos_neg, Real.sin_neg, Real.cos_pi_div_four, Real.sin_pi_div_four]
  simp only [Prod.mk.injEq]
  refine ⟨by ring, trivial, by ring⟩

/-- C3 (amended): the rotation axis of the miter cuts is the local Y axis —
the PROFILE'S DEPTH DIRECTION itself, not the axis perpendicular to both the
extrusion direction and the depth direction that the claim names (see the
counterexample).  Concretely: the start cut volume is the miter box rotated
+45° about local Y, anchored at `(0, frame_depth, 0)` on the extrusion-start
plane; the end cut is the mirror volume rotated -45° about local Y, anchored
at `(0, frame_depth, length)`; the rotation angle is exactly 45°
(`cos = sin = √2/2`); and for any cross-section inside the profile rectangle
the two end faces of the mitered side are exact copies of the cross-section
lying in the planes `x = z` and `x + z = length`, each plane at 45° to the
extrusion axis. -/
theorem miter_cut_geometry (g : FrameConfig) (F : Set V2) (len : ℝ)
    (hFr : F ⊆ rect 0 (g.frame_width : ℝ) 0 ((g.frame_depth : ℝ) + 8))
    (hlen : 2 * (g.frame_width : ℝ) ≤ len) :
    (cut_one len (g.frame_depth : ℝ) =
        (fun q => ((0 : ℝ), (g.frame_depth : ℝ), (0 : ℝ)) + rotY (Real.pi / 4) q) ''
          miterBoxOpen len (g.frame_depth : ℝ) ∧
      cut_two len (g.frame_depth : ℝ) =
        (fun q => ((0 : ℝ), (g.frame_depth : ℝ), len) + rotY (-(Real.pi / 4)) q) ''
          miterBoxOpen len (g.frame_depth : ℝ)) ∧
    (Real.cos (rad 45) = sqh ∧ Real.sin (rad 45) = sqh) ∧
    (miteredSide F len (g.frame_depth : ℝ) ∩ {p : V3 | p.1 = p.2.2} =
        (fun w : V2 => (w.1, w.2, w.1)) '' F ∧
      miteredSide F len (g.frame_depth : ℝ) ∩ {p : V3 | p.1 + p.2.2 = len} =
        (fun w : V2 => (w.1, w.2, len - w.1)) '' F) := by
  have hFb : ∀ w ∈ F, 0 ≤ w.1 ∧ 2 * w.1 ≤ len := by
    intro w hw
    obtain ⟨h0, h1, -, -⟩ := hFr hw
    exact ⟨h0, by linarith⟩
  refine ⟨⟨?_, ?_⟩, ⟨?_, ?_⟩,
    miteredSide_startFace F len _ hFb, miteredSide_endFace F len _ hFb⟩
  · unfold cut_one locate
    apply Set.image_congr'
    intro q
    rw [eulerXYZ_eq_rotY45]
  · unfold cut_two locate
    apply Set.image_congr'
    intro q
    rw [eulerXYZ_eq_rotYneg45]
  · rw [rad_45, Real.cos_pi_div_four]
    rfl
  · rw [rad_45, Real.sin_pi_div_four]
    rfl

/-- Witness for `miter_cut_geometry` at the default configuration's left
side (`length = outer_height = 230`): the rotation angle is 45° and the
start end face is an exact copy of the profile cross-section in the plane
`x = z`. -/
theorem miter_cut_geometry_witness :
    Real.cos (rad 45) = sqh ∧
      miteredSide (profileCurve defaultConfig) 230 20 ∩ {p : V3 | p.1 = p.2.2} =
        (fun w : V2 => (w.1, w.2, w.1)) '' profileCurve defaultConfig := by
  have h := miter_cut_geometry defaultConfig (profileCurve defaultConfig) 230
    (profileCurve_subset_rect defaultConfig (by decide)) (by norm_num [defaultConfig])
  have hfd : (defaultConfig.frame_depth : ℝ) = 20 := by norm_num [defaultConfig]
  rw [hfd] at h
  exact ⟨h.2.1.1, h.2.2.1⟩

/-! ## C6: placement consistency at the four corners -/

/-- The world seam plane of the top-left corner: `y = -x`. -/
def seamTL : Set V3 := {P | P.2.1 = -P.1}

/-- The world seam plane of the left-bottom corner: `y = x - outer_height`. -/
def seamLB (ht : ℝ) : Set V3 := {P | P.2.1 = P.1 - ht}

/-- The world seam plane of the bottom-right corner:
`x + y = outer_width - outer_height`. -/
def seamBR (wd ht : ℝ) : Set V3 := {P | P.1 + P.2.1 = wd - ht}

/-- The world seam plane of the right-top corner: `y = x - outer_width`. -/
def seamRT (wd : ℝ) : Set V3 := {P | P.2.1 = P.1 - wd}

/-- The placed left side meets the top-left seam plane in an exact copy of
the profile cross-section (its start miter face). -/
theorem left_start_seam (F : Set V2) (ht fd : ℝ)
    (hF : ∀ w ∈ F, 0 ≤ w.1 ∧ 2 * w.1 ≤ ht) :
    loc_left (miteredSide F ht fd) ∩ seamTL =
      (fun w : V2 => (w.1, -w.1, w.2)) '' F := by
  ext P
  obtain ⟨X, Y, Z⟩ := P
  simp only [Set.mem_inter_iff, mem_loc_left, seamTL, Set.mem_setOf_eq, Set.mem_image,
    Prod.mk.injEq]
  constructor
  · rintro ⟨hS, hpl⟩
    have hmem : ((X, Z, -Y) : V3) ∈ miteredSide F ht fd ∩ {p : V3 | p.1 = p.2.2} :=
      ⟨hS, by simp only [Set.mem_setOf_eq]; linarith⟩
    rw [miteredSide_startFace F ht fd hF] at hmem
    obtain ⟨w, hw, hweq⟩ := hmem
    simp only [Prod.mk.injEq] at hweq
    exact ⟨w, hw, hweq.1, by linarith [hweq.2.2], hweq.2.1⟩
  · rintro ⟨w, hw, h1, h2, h3⟩
    have hmem : ((w.1, w.2, w.1) : V3) ∈ miteredSide F ht fd ∩ {p : V3 | p.1 = p.2.2} := by
      rw [miteredSide_startFace F ht fd hF]
      exact ⟨w, hw, rfl⟩
    have heq : ((X, Z, -Y) : V3) = ((w.1, w.2, w.1) : V3) := by
      simp only [Prod.mk.injEq]
      refine ⟨by linarith, by linarith, by linarith⟩
    refine ⟨?_, by linarith⟩
    rw [heq]
    exact hmem.1

/-- The placed top side meets the top-left seam plane in the same exact copy
of the profile cross-section (its end miter face). -/
theorem top_end_seam (F : Set V2) (wd fd : ℝ)
    (hF : ∀ w ∈ F, 0 ≤ w.1 ∧ 2 * w.1 ≤ wd) :
    loc_top wd (miteredSide F wd fd) ∩ seamTL =
      (fun w : V2 => (w.1, -w.1, w.2)) '' F := by
  ext P
  obtain ⟨X, Y, Z⟩ := P
  simp only [Set.mem_inter_iff, mem_loc_top, seamTL, Set.mem_setOf_eq, Set.mem_image,
    Prod.mk.injEq]
  constructor
  · rintro ⟨hS, hpl⟩
    have hmem : ((-Y, Z, wd - X) : V3) ∈ miteredSide F wd fd ∩ {p : V3 | p.1 + p.2.2 = wd} :=
      ⟨hS, by simp only [Set.mem_setOf_eq]; linarith⟩
    rw [miteredSide_endFace F wd fd hF] at hmem
    obtain ⟨w, hw, hweq⟩ := hmem
    simp only [Prod.mk.injEq] at hweq
    exact ⟨w, hw, by linarith [hweq.2.2], by linarith [hweq.1], hweq.2.1⟩
  · rintro ⟨w, hw, h1, h2, h3⟩
    have hmem : ((w.1, w.2, wd - w.1) : V3) ∈
        miteredSide F wd fd ∩ {p : V3 | p.1 + p.2.2 = wd} := by
      rw [miteredSide_endFace F wd fd hF]
      exact ⟨w, hw, rfl⟩
    have heq : ((-Y, Z, wd - X) : V3) = ((w.1, w.2, wd - w.1) : V3) := by
      simp only [Prod.mk.injEq]
      refine ⟨by linarith, by linarith, by linarith⟩
    refine ⟨?_, by linarith⟩
    rw [heq]
    exact hmem.1

/-- The placed left side meets the left-bottom seam plane in an exact copy
of the profile cross-section (its end miter face). -/
theorem left_end_seam (F : Set V2) (ht fd : ℝ)
    (hF : ∀ w ∈ F, 0 ≤ w.1 ∧ 2 * w.1 ≤ ht) :
    loc_left (miteredSide F ht fd) ∩ seamLB ht =
      (fun w : V2 => (w.1, w.1 - ht, w.2)) '' F := by
  ext P
  obtain ⟨X, Y, Z⟩ := P
  simp only [Set.mem_inter_iff, mem_loc_left, seamLB, Set.mem_setOf_eq, Set.mem_image,
    Prod.mk.injEq]
  constructor
  · rintro ⟨hS, hpl⟩
    have hmem : ((X, Z, -Y) : V3) ∈ miteredSide F ht fd ∩ {p : V3 | p.1 + p.2.2 = ht} :=
      ⟨hS, by simp only [Set.mem_setOf_eq]; linarith⟩
    rw [miteredSide_endFace F ht fd hF] at hmem
    obtain ⟨w, hw, hweq⟩ := hmem
    simp only [Prod.mk.injEq] at hweq
    exact ⟨w, hw, hweq.1, by linarith [hweq.2.2], hweq.2.1⟩
  · rintro ⟨w, hw, h1, h2, h3⟩
    have hmem : ((w.1, w.2, ht - w.1) : V3) ∈
        miteredSide F ht fd ∩ {p : V3 | p.1 + p.2.2 = ht} := by
      rw [miteredSide_endFace F ht fd hF]
      exact ⟨w, hw, rfl⟩
    have heq : ((X, Z, -Y) : V3) = ((w.1, w.2, ht - w.1) : V3) := by
      simp only [Prod.mk.injEq]
      refine ⟨by linarith, by linarith, by linarith⟩
    refine ⟨?_, by linarith⟩
    rw [heq]
    exact hmem.1

/-- The placed bottom side meets the left-bottom seam plane in the same
exact copy of the profile cross-section (its start miter face). -/
theorem bottom_start_seam (F : Set V2) (wd ht fd : ℝ)
    (hF : ∀ w ∈ F, 0 ≤ w.1 ∧ 2 * w.1 ≤ wd) :
    loc_bottom ht (miteredSide F wd fd) ∩ seamLB ht =
      (fun w : V2 => (w.1, w.1 - ht, w.2)) '' F := by
  ext P
  obtain ⟨X, Y, Z⟩ := P
  simp only [Set.mem_inter_iff, mem_loc_bottom, seamLB, Set.mem_setOf_eq, Set.mem_image,
    Prod.mk.injEq]
  constructor
  · rintro ⟨hS, hpl⟩
    have hmem : ((Y + ht, Z, X) : V3) ∈ miteredSide F wd fd ∩ {p : V3 | p.1 = p.2.2} :=
      ⟨hS, by simp only [Set.mem_setOf_eq]; linarith⟩
    rw [miteredSide_startFace F wd fd hF] at hmem
    obtain ⟨w, hw, hweq⟩ := hmem
    simp only [Prod.mk.injEq] at hweq
    exact ⟨w, hw, hweq.2.2, by linarith [hweq.1], hweq.2.1⟩
  · rintro ⟨w, hw, h1, h2, h3⟩
    have hmem : ((w.1, w.2, w.1) : V3) ∈ miteredSide F wd fd ∩ {p : V3 | p.1 = p.2.2} := by
      rw [miteredSide_startFace F wd fd hF]
      exact ⟨w, hw, rfl⟩
    have heq : ((Y + ht, Z, X) : V3) = ((w.1, w.2, w.1) : V3) := by
      simp only [Prod.mk.injEq]
      refine ⟨by linarith, by linarith, by linarith⟩
    refine ⟨?_, by linarith⟩
    rw [heq]
    exact hmem.1

/-- The placed bottom side meets the bottom-right seam plane in an exact
copy of the profile cross-section (its end miter face). -/
theorem bottom_end_seam (F : Set V2) (wd ht fd : ℝ)
    (hF : ∀ w ∈ F, 0 ≤ w.1 ∧ 2 * w.1 ≤ wd) :
    loc_bottom ht (miteredSide F wd fd) ∩ seamBR wd ht =
      (fun w : V2 => (wd - w.1, w.1 - ht, w.2)) '' F := by
  ext P
  obtain ⟨X, Y, Z⟩ := P
  simp only [Set.mem_inter_iff, mem_loc_bottom, seamBR, Set.mem_setOf_eq, Set.mem_image,
    Prod.mk.injEq]
  constructor
  · rintro ⟨hS, hpl⟩
    have hmem : ((Y + ht, Z, X) : V3) ∈ miteredSide F wd fd ∩ {p : V3 | p.1 + p.2.2 = wd} :=
      ⟨hS, by simp only [Set.mem_setOf_eq]; linarith⟩
    rw [miteredSide_endFace F wd fd hF] at hmem
    obtain ⟨w, hw, hweq⟩ := hmem
    simp only [Prod.mk.injEq] at hweq
    exact ⟨w, hw, by linarith [hweq.2.2], by linarith [hweq.1], hweq.2.1⟩
  · rintro ⟨w, hw, h1, h2, h3⟩
    have hmem : ((w.1, w.2, wd - w.1) : V3) ∈
        miteredSide F wd fd ∩ {p : V3 | p.1 + p.2.2 = wd} := by
      rw [miteredSide_endFace F wd fd hF]
      exact ⟨w, hw, rfl⟩
    have heq : ((Y + ht, Z, X) : V3) = ((w.1, w.2, wd - w.1) : V3) := by
      simp only [Prod.mk.injEq]
      refine ⟨by linarith, by linarith, by linarith⟩
    refine ⟨?_, by linarith⟩
    rw [heq]
    exact hmem.1

/-- The placed right side meets the bottom-right seam plane in the same
exact copy of the profile cross-section (its start miter face). -/
theorem right_start_seam (F : Set V2) (wd ht fd : ℝ)
    (hF : ∀ w ∈ F, 0 ≤ w.1 ∧ 2 * w.1 ≤ ht) :
    loc_right wd ht (miteredSide F ht fd) ∩ seamBR wd ht =
      (fun w : V2 => (wd - w.1, w.1 - ht, w.2)) '' F := by
  ext P
  obtain ⟨X, Y, Z⟩ := P
  simp only [Set.mem_inter_iff, mem_loc_right, seamBR, Set.mem_setOf_eq, Set.mem_image,
    Prod.mk.injEq]
  constructor
  · rintro ⟨hS, hpl⟩
    have hmem : ((wd - X, Z, Y + ht) : V3) ∈ miteredSide F ht fd ∩ {p : V3 | p.1 = p.2.2} :=
      ⟨hS, by simp only [Set.mem_setOf_eq]; linarith⟩
    rw [miteredSide_startFace F ht fd hF] at hmem
    obtain ⟨w, hw, hweq⟩ := hmem
    simp only [Prod.mk.injEq] at hweq
    exact ⟨w, hw, by linarith [hweq.1], by linarith [hweq.2.2], hweq.2.1⟩
  · rintro ⟨w, hw, h1, h2, h3⟩
    have hmem : ((w.1, w.2, w.1) : V3) ∈ miteredSide F ht fd ∩ {p : V3 | p.1 = p.2.2} := by
      rw [miteredSide_startFace F ht fd hF]
      exact ⟨w, hw, rfl⟩
    have heq : ((wd - X, Z, Y + ht) : V3) = ((w.1, w.2, w.1) : V3) := by
      simp only [Prod.mk.injEq]
      refine ⟨by linarith, by linarith, by linarith⟩
    refine ⟨?_, by linarith⟩
    rw [heq]
    exact hmem.1

/-- The placed right side meets the right-top seam plane in an exact copy of
the profile cross-section (its end miter face). -/
theorem right_end_seam (F : Set V2) (wd ht fd : ℝ)
    (hF : ∀ w ∈ F, 0 ≤ w.1 ∧ 2 * w.1 ≤ ht) :
    loc_right wd ht (miteredSide F ht fd) ∩ seamRT wd =
      (fun w : V2 => (wd - w.1, -w.1, w.2)) '' F := by
  ext P
  obtain ⟨X, Y, Z⟩ := P
  simp only [Set.mem_inter_iff, mem_loc_right, seamRT, Set.mem_setOf_eq, Set.mem_image,
    Prod.mk.injEq]
  constructor
  · rintro ⟨hS, hpl⟩
    have hmem : ((wd - X, Z, Y + ht) : V3) ∈
        miteredSide F ht fd ∩ {p : V3 | p.1 + p.2.2 = ht} :=
      ⟨hS, by simp only [Set.mem_setOf_eq]; linarith⟩
    rw [miteredSide_endFace F ht fd hF] at hmem
    obtain ⟨w, hw, hweq⟩ := hmem
    simp only [Prod.mk.injEq] at hweq
    exact ⟨w, hw, by linarith [hweq.1], by linarith [hweq.2.2], hweq.2.1⟩
  · rintro ⟨w, hw, h1, h2, h3⟩
    have hmem : ((w.1, w.2, ht - w.1) : V3) ∈
        miteredSide F ht fd ∩ {p : V3 | p.1 + p.2.2 = ht} := by
      rw [miteredSide_endFace F ht fd hF]
      exact ⟨w, hw, rfl⟩
    have heq : ((wd - X, Z, Y + ht) : V3) = ((w.1, w.2, ht - w.1) : V3) := by
      simp only [Prod.mk.injEq]
      refine ⟨by linarith, by linarith, by linarith⟩
    refine ⟨?_, by linarith⟩
    rw [heq]
    exact hmem.1

/-- The placed top side meets the right-top seam plane in the same exact
copy of the profile cross-section (its start miter face). -/
theorem top_start_seam (F : Set V2) (wd fd : ℝ)
    (hF : ∀ w ∈ F, 0 ≤ w.1 ∧ 2 * w.1 ≤ wd) :
    loc_top wd (miteredSide F wd fd) ∩ seamRT wd =
      (fun w : V2 => (wd - w.1, -w.1, w.2)) '' F := by
  ext P
  obtain ⟨X, Y, Z⟩ := P
  simp only [Set.mem_inter_iff, mem_loc_top, seamRT, Set.mem_setOf_eq, Set.mem_image,
    Prod.mk.injEq]
  constructor
  · rintro ⟨hS, hpl⟩
    have hmem : ((-Y, Z, wd - X) : V3) ∈ miteredSide F wd fd ∩ {p : V3 | p.1 = p.2.2} :=
      ⟨hS, by simp only [Set.mem_setOf_eq]; linarith⟩
    rw [miteredSide_startFace F wd fd hF] at hmem
    obtain ⟨w, hw, hweq⟩ := hmem
    simp only [Prod.mk.injEq] at hweq
    exact ⟨w, hw, by linarith [hweq.2.2], by linarith [hweq.1], hweq.2.1⟩
  · rintro ⟨w, hw, h1, h2, h3⟩
    have hmem : ((w.1, w.2, w.1) : V3) ∈ miteredSide F wd fd ∩ {p : V3 | p.1 = p.2.2} := by
      rw [miteredSide_startFace F wd fd hF]
      exact ⟨w, hw, rfl⟩
    have heq : ((-Y, Z, wd - X) : V3) = ((w.1, w.2, w.1) : V3) := by
      simp only [Prod.mk.injEq]
      refine ⟨by linarith, by linarith, by linarith⟩
    refine ⟨?_, by linarith⟩
    rw [heq]
    exact hmem.1

/-- C6: each side's extrusion length is the outer height (left, right) or
outer width (bottom, top); each placement rotation is the stated closed-form
coordinate map; and the four placements are mutually consistent: at each of
the four corner seam planes the two adjacent placed mitered sides intersect
the plane in the SAME exact copy of the profile cross-section — their
mitered ends are coincident and coplanar in world space. -/
theorem frame_sides_consistent (g : FrameConfig) (F : Set V2) (hg : ValidConfig g)
    (hFr : F ⊆ rect 0 (g.frame_width : ℝ) 0 ((g.frame_depth : ℝ) + 8)) :
    (orientations (outerW g : ℝ) (outerH g : ℝ)).map SideJob.len =
        [(outerH g : ℝ), (outerH g : ℝ), (outerW g : ℝ), (outerW g : ℝ)] ∧
      (∀ v : V3, eulerXYZ 90 0 0 v = (v.1, -v.2.2, v.2.1)) ∧
      (∀ v : V3, eulerXYZ 90 180 0 v = (-v.1, v.2.2, v.2.1)) ∧
      (∀ v : V3, eulerXYZ 90 90 0 v = (v.2.2, v.1, v.2.1)) ∧
      (∀ v : V3, eulerXYZ 90 (-90) 0 v = (-v.2.2, -v.1, v.2.1)) ∧
      (loc_left (miteredSide F (outerH g : ℝ) (g.frame_depth : ℝ)) ∩ seamTL =
          (fun w : V2 => (w.1, -w.1, w.2)) '' F ∧
        loc_top (outerW g : ℝ) (miteredSide F (outerW g : ℝ) (g.frame_depth : ℝ)) ∩ seamTL =
          (fun w : V2 => (w.1, -w.1, w.2)) '' F) ∧
      (loc_left (miteredSide F (outerH g : ℝ) (g.frame_depth : ℝ)) ∩ seamLB (outerH g : ℝ) =
          (fun w : V2 => (w.1, w.1 - (outerH g : ℝ), w.2)) '' F ∧
        loc_bottom (outerH g : ℝ) (miteredSide F (outerW g : ℝ) (g.frame_depth : ℝ)) ∩
            seamLB (outerH g : ℝ) =
          (fun w : V2 => (w.1, w.1 - (outerH g : ℝ), w.2)) '' F) ∧
      (loc_bottom (outerH g : ℝ) (miteredSide F (outerW g : ℝ) (g.frame_depth : ℝ)) ∩
            seamBR (outerW g : ℝ) (outerH g : ℝ) =
          (fun w : V2 => ((outerW g : ℝ) - w.1, w.1 - (outerH g : ℝ), w.2)) '' F ∧
        loc_right (outerW g : ℝ) (outerH g : ℝ)
            (miteredSide F (outerH g : ℝ) (g.frame_depth : ℝ)) ∩
            seamBR (outerW g : ℝ) (outerH g : ℝ) =
          (fun w : V2 => ((outerW g : ℝ) - w.1, w.1 - (outerH g : ℝ), w.2)) '' F) ∧
      (loc_right (outerW g : ℝ) (outerH g : ℝ)
            (miteredSide F (outerH g : ℝ) (g.frame_depth : ℝ)) ∩ seamRT (outerW g : ℝ) =
          (fun w : V2 => ((outerW g : ℝ) - w.1, -w.1, w.2)) '' F ∧
        loc_top (outerW g : ℝ) (miteredSide F (outerW g : ℝ) (g.frame_depth : ℝ)) ∩
            seamRT (outerW g : ℝ) =
          (fun w : V2 => ((outerW g : ℝ) - w.1, -w.1, w.2)) '' F) := by
  obtain ⟨hpw, hph, hfw, -, -, -, -, -⟩ := hg
  have hpwR : (0 : ℝ) < (g.painting_width : ℝ) := by exact_mod_cast hpw
  have hphR : (0 : ℝ) < (g.painting_height : ℝ) := by exact_mod_cast hph
  have hfwR : (0 : ℝ) < (g.frame_width : ℝ) := by exact_mod_cast hfw
  have hW : ((outerW g : ℚ) : ℝ) = (g.painting_width : ℝ) + 2 * (g.frame_width : ℝ) := by
    unfold outerW; push_cast; ring
  have hH : ((outerH g : ℚ) : ℝ) = (g.painting_height : ℝ) + 2 * (g.frame_width : ℝ) := by
    unfold outerH; push_cast; ring
  have hFbW : ∀ w ∈ F, 0 ≤ w.1 ∧ 2 * w.1 ≤ (outerW g : ℝ) := by
    intro w hw
    obtain ⟨h0, h1, -, -⟩ := hFr hw
    exact ⟨h0, by linarith⟩
  have hFbH : ∀ w ∈ F, 0 ≤ w.1 ∧ 2 * w.1 ≤ (outerH g : ℝ) := by
    intro w hw
    obtain ⟨h0, h1, -, -⟩ := hFr hw
    exact ⟨h0, by linarith⟩
  exact ⟨rfl, eulerXYZ_left, eulerXYZ_right, eulerXYZ_bottom, eulerXYZ_top,
    ⟨left_start_seam F _ _ hFbH, top_end_seam F _ _ hFbW⟩,
    ⟨left_end_seam F _ _ hFbH, bottom_start_seam F _ _ _ hFbW⟩,
    ⟨bottom_end_seam F _ _ _ hFbW, right_start_seam F _ _ _ hFbH⟩,
    ⟨right_end_seam F _ _ _ hFbH, top_start_seam F _ _ hFbW⟩⟩

/-- Witness for `frame_sides_consistent` at the default configuration: the
mitered ends of the left and top sides meeting at the top-left corner seam
are coincident. -/
theorem frame_sides_consistent_witness :
    ValidConfig defaultConfig ∧
      loc_left (miteredSide (profileCurve defaultConfig) (outerH defaultConfig : ℝ)
          (defaultConfig.frame_depth : ℝ)) ∩ seamTL =
        loc_top (outerW defaultConfig : ℝ)
          (miteredSide (profileCurve defaultConfig) (outerW defaultConfig : ℝ)
            (defaultConfig.frame_depth : ℝ)) ∩ seamTL := by
  have h := frame_sides_consistent defaultConfig (profileCurve defaultConfig) (by decide)
    (profileCurve_subset_rect defaultConfig (by decide))
  obtain ⟨-, -, -, -, -, ⟨hTL1, hTL2⟩, -⟩ := h
  exact ⟨by decide, by rw [hTL1, hTL2]⟩
